import Mathlib

/-!
Verification of the perspecta DICOM viewer core against its specification.

The definitions below are shallow embeddings of functions from
`src/dicom.rs` and `src/dicomweb.rs`.  Byte streams are modelled as
`List Nat` (each entry one byte), Rust strings as `String` or `List Char`,
machine integers as `Nat`/`Int` with explicit bounds where overflow or
`try_from` conversions matter, and fallible functions as `Option`/`Except`.
-/

namespace Perspecta

/-! ## Byte-stream helpers (dicom.rs)

`byteAt` models indexing into a byte buffer; all uses below are guarded by
explicit length checks exactly as in the source, so the default value is
never observed on in-range reads. -/

def byteAt (bytes : List Nat) (i : Nat) : Nat := bytes.getD i 0

/-- `u16::from_le_bytes` of the two bytes at `i`, `i+1`. -/
def u16le (bytes : List Nat) (i : Nat) : Nat :=
  byteAt bytes i + 256 * byteAt bytes (i + 1)

/-- `u32::from_le_bytes` of the four bytes at `i`..`i+3`. -/
def u32le (bytes : List Nat) (i : Nat) : Nat :=
  byteAt bytes i + 256 * byteAt bytes (i + 1) + 65536 * byteAt bytes (i + 2) +
    16777216 * byteAt bytes (i + 3)

/-- Little-endian encoding of a 32-bit value (`u32::to_le_bytes`). -/
def le32 (n : Nat) : List Nat :=
  [n % 256, n / 256 % 256, n / 65536 % 256, n / 16777216 % 256]

/-- The `b"DICM"` magic: bytes of `D`, `I`, `C`, `M`. -/
def dicmMagic : List Nat := [68, 73, 67, 77]

/-- `detect_dicom_prefix_offset` (dicom.rs): 132 if the magic sits after a
128-byte preamble, 4 for a bare magic, `none` otherwise. -/
def detectDicomPrefixOffset (bytes : List Nat) : Option Nat :=
  if 132 ≤ bytes.length ∧ (bytes.drop 128).take 4 = dicmMagic then some 132
  else if 4 ≤ bytes.length ∧ bytes.take 4 = dicmMagic then some 4
  else none

/-- The VR byte pairs that use the 12-byte header with a 32-bit length field
in `read_explicit_vr_element_length` (dicom.rs): OB OD OF OL OW SQ UC UR UT UN.
Each pair is the two ASCII bytes of the VR code. -/
def usesU32Len (vr : Nat × Nat) : Bool :=
  vr ∈ [(79, 66), (79, 68), (79, 70), (79, 76), (79, 87),
        (83, 81), (85, 67), (85, 82), (85, 84), (85, 78)]

/-- The VR family that the specification text lists for the 12-byte header
form.  This definition follows the spec's words (`OB/OD/OF/OL/SQ/UC/UR/UT/UN`),
to be compared with `usesU32Len`, which is translated from the source. -/
def claimedU32VrFamilySpec : List (Nat × Nat) :=
  [(79, 66), (79, 68), (79, 70), (79, 76),
   (83, 81), (85, 67), (85, 82), (85, 84), (85, 78)]

/-- `read_explicit_vr_element_length` (dicom.rs): header length and value
length of the explicit-VR element at `position`.  The caller guarantees
`position + 8 ≤ bytes.length`; the 12-byte form performs its own bounds
check and rejects the undefined length `0xFFFFFFFF`. -/
def readExplicitVrElementLength (bytes : List Nat) (position : Nat)
    (vr : Nat × Nat) : Option (Nat × Nat) :=
  if usesU32Len vr then
    if bytes.length < position + 12 then none
    else
      let valueLen := u32le bytes (position + 8)
      if valueLen = 4294967295 then none else some (12, valueLen)
  else some (8, u16le bytes (position + 6))

/-- The `while` loop of `scan_meta_group_len_without_group_length` (dicom.rs):
walks consecutive elements from `position` while the tag group is `0x0002`,
returning the final position (`none` on an unparseable layout).  The `fuel`
parameter makes the recursion structural; `scanGo_eq_spec` below proves that
with the fuel used by `scanMetaGroupLenWithoutGroupLength` this function
coincides with the directly-translated loop `scanGoSpec`, so the fuel is
never exhausted. -/
def scanGo (bytes : List Nat) : Nat → Nat → Option Nat
  | 0, _ => none
  | fuel + 1, position =>
    if position + 8 ≤ bytes.length then
      if u16le bytes position ≠ 2 then some position
      else
        match readExplicitVrElementLength bytes position
            (byteAt bytes (position + 4), byteAt bytes (position + 5)) with
        | none => none
        | some (hlen, vlen) =>
          if position + hlen + vlen ≤ bytes.length then
            scanGo bytes fuel (position + hlen + vlen)
          else none
    else some position

/-- Reference translation of the same loop by well-founded recursion on the
remaining byte count (each iteration advances by at least the 8-byte header). -/
def scanGoSpec (bytes : List Nat) (position : Nat) : Option Nat :=
  if position + 8 ≤ bytes.length then
    if u16le bytes position ≠ 2 then some position
    else
      match hr : readExplicitVrElementLength bytes position
          (byteAt bytes (position + 4), byteAt bytes (position + 5)) with
      | none => none
      | some (hlen, vlen) =>
        if position + hlen + vlen ≤ bytes.length then
          scanGoSpec bytes (position + hlen + vlen)
        else none
  else some position
termination_by bytes.length - position
decreasing_by
  have h812 : hlen = 8 ∨ hlen = 12 := by
    unfold readExplicitVrElementLength at hr
    split at hr
    · split at hr
      · exact absurd hr (by simp)
      · dsimp only at hr
        split at hr
        · exact absurd hr (by simp)
        · rw [Option.some.injEq, Prod.mk.injEq] at hr
          right; exact hr.1.symm
    · rw [Option.some.injEq, Prod.mk.injEq] at hr
      left; exact hr.1.symm
  omega

/-- `scan_meta_group_len_without_group_length` (dicom.rs). -/
def scanMetaGroupLenWithoutGroupLength (bytes : List Nat) (start : Nat) :
    Option Nat :=
  match scanGo bytes (bytes.length + 1) start with
  | none => none
  | some position => if start < position then some (position - start) else none

/-- `build_group_length_element` (dicom.rs): group `0x0002`, element `0x0000`,
VR `UL` (bytes 85 76), length 4, little-endian 32-bit value. -/
def buildGroupLengthElement (groupLen : Nat) : List Nat :=
  [2, 0, 0, 0, 85, 76, 4, 0] ++ le32 groupLen

/-- `repair_missing_meta_group_length` (dicom.rs).  The `groupLen < 2^32`
test models `u32::try_from(meta_group_len).ok()?`. -/
def repairMissingMetaGroupLength (bytes : List Nat) : Option (List Nat) :=
  match detectDicomPrefixOffset bytes with
  | none => none
  | some offset =>
    if bytes.length < offset + 4 then none
    else if u16le bytes offset ≠ 2 ∨ u16le bytes (offset + 2) = 0 then none
    else
      match scanMetaGroupLenWithoutGroupLength bytes offset with
      | none => none
      | some metaGroupLen =>
        if metaGroupLen < 4294967296 then
          some (bytes.take offset ++ buildGroupLengthElement metaGroupLen ++
            bytes.drop offset)
        else none

/-! ## Frame-count derivation (dicom.rs, `load_dicom`) -/

/-- The `NumberOfFrames` handling in `load_dicom` (dicom.rs:223-227): the tag
value, if present, must be positive; an absent tag defaults to 1.  The
resulting count is stored unchanged in `DicomImage.frame_count`. -/
def frameCountFromTag (numberOfFrames : Option Int) : Except String Nat :=
  match numberOfFrames with
  | some value =>
    if 0 < value then .ok value.toNat
    else .error ("Invalid NumberOfFrames=" ++ toString value ++ " (must be >= 1)")
  | none => .ok 1

/-! ## Subslice search (dicomweb.rs, `find_subslice`)

`find_subslice` in the source returns the first window index at which the
needle occurs, via `windows(..).position(..)`; generic here so the same
function serves byte bodies (`List Nat`) and text (`List Char`). -/

def findSubGo {α : Type} [DecidableEq α] (needle : List α) :
    List α → Nat → Option Nat
  | [], _ => none
  | a :: rest, i =>
    if needle.isPrefixOf (a :: rest) then some i
    else findSubGo needle rest (i + 1)

/-- `find_subslice` (dicomweb.rs): `none` for an empty or over-long needle,
otherwise the first index where the needle matches. -/
def findSubslice {α : Type} [DecidableEq α] (haystack needle : List α) :
    Option Nat :=
  if needle = [] ∨ haystack.length < needle.length then none
  else findSubGo needle haystack 0

/-! ## Multipart unwrapping (dicomweb.rs) -/

/-- `find_line_end` (dicomweb.rs): the first CRLF, else the first LF, with the
separator length. -/
def findLineEnd (bytes : List Nat) : Option (Nat × Nat) :=
  match findSubslice bytes [13, 10] with
  | some index => some (index, 2)
  | none => (findSubslice bytes [10]).map (fun index => (index, 1))

/-- `find_headers_end` (dicomweb.rs): the first blank line (CRLFCRLF, else
LFLF), with the separator length. -/
def findHeadersEnd (bytes : List Nat) : Option (Nat × Nat) :=
  match findSubslice bytes [13, 10, 13, 10] with
  | some index => some (index, 4)
  | none => (findSubslice bytes [10, 10]).map (fun index => (index, 2))

/-- `find_boundary_after_payload` (dicomweb.rs): the first CRLF-led (else
LF-led) `--boundary` line after the payload start.  The bytes 45 45 are
`-` `-`. -/
def findBoundaryAfterPayload (body : List Nat) (payloadStart : Nat)
    (boundary : List Nat) : Option Nat :=
  match findSubslice (body.drop payloadStart) ([13, 10, 45, 45] ++ boundary) with
  | some index => some (payloadStart + index)
  | none =>
    (findSubslice (body.drop payloadStart) ([10, 45, 45] ++ boundary)).map
      (fun index => payloadStart + index)

/-- `extract_dicom_from_multipart` (dicomweb.rs). -/
def extractDicomFromMultipart (body : List Nat) : Option (List Nat) :=
  match findLineEnd body with
  | none => none
  | some (lineEnd, lineSepLen) =>
    let firstLine := body.take lineEnd
    if [45, 45].isPrefixOf firstLine ∧ 2 < firstLine.length then
      let boundary := firstLine.drop 2
      let headersStart := lineEnd + lineSepLen
      match findHeadersEnd (body.drop headersStart) with
      | none => none
      | some (headersEndRel, headersSepLen) =>
        let payloadStart := headersStart + headersEndRel + headersSepLen
        match findBoundaryAfterPayload body payloadStart boundary with
        | none => none
        | some payloadEnd =>
          some ((body.drop payloadStart).take (payloadEnd - payloadStart))
    else none

/-- `unwrap_dicom_multipart` (dicomweb.rs): extracted payload, else the body
unchanged. -/
def unwrapDicomMultipart (body : List Nat) : List Nat :=
  match extractDicomFromMultipart body with
  | some extracted => extracted
  | none => body

/-! ## Base-URL normalization (dicomweb.rs) -/

/-- Rust `char::is_whitespace`: the Unicode `White_Space` code points. -/
def isRustWhitespace (c : Char) : Bool :=
  c.toNat ∈ [9, 10, 11, 12, 13, 32, 133, 160, 5760, 8192, 8193, 8194, 8195,
    8196, 8197, 8198, 8199, 8200, 8201, 8202, 8232, 8233, 8239, 8287, 12288]

/-- Rust `str::trim_end_matches` for a character class. -/
def trimEndMatches (p : Char → Bool) (l : List Char) : List Char :=
  (l.reverse.dropWhile p).reverse

/-- Rust `str::trim` (leading and trailing whitespace). -/
def trimChars (l : List Char) : List Char :=
  trimEndMatches isRustWhitespace (l.dropWhile isRustWhitespace)

/-- Rust `str::trim_matches` for a character class (both ends). -/
def trimMatches (p : Char → Bool) (l : List Char) : List Char :=
  trimEndMatches p (l.dropWhile p)

/-- `strip_query_and_fragment` (dicomweb.rs): cut at the first `?` or `#`. -/
def stripQueryAndFragment (l : List Char) : List Char :=
  let queryIndex := (findSubslice l ['?']).getD l.length
  let fragmentIndex := (findSubslice l ['#']).getD l.length
  l.take (min queryIndex fragmentIndex)

/-- Rust `str::split_once`: split at the first occurrence of the pattern. -/
def splitOnceList (l pat : List Char) : Option (List Char × List Char) :=
  match findSubslice l pat with
  | none => none
  | some i => some (l.take i, l.drop (i + pat.length))

/-- The `'/'` character class used by `trim_end_matches('/')` and
`trim_matches('/')`. -/
def isSlash (c : Char) : Bool := c = '/'

/-- The `"://"` scheme separator searched by `split_once`. -/
def protocolSep : List Char := [':', '/', '/']

/-- The characters of the appended default path segment `"/dicom-web"`. -/
def dicomWebSuffix : List Char :=
  ['/', 'd', 'i', 'c', 'o', 'm', '-', 'w', 'e', 'b']

/-- `has_root_only_path` (dicomweb.rs). -/
def hasRootOnlyPath (url : List Char) : Bool :=
  match splitOnceList url protocolSep with
  | some (_, rest) =>
    match findSubslice rest ['/'] with
    | none => true
    | some pathIndex => (trimMatches isSlash (rest.drop pathIndex)).isEmpty
  | none => ! url.contains '/'

/-- The `trimmed` binding of `normalize_base_url` (dicomweb.rs):
`strip_query_and_fragment(base_url.trim()).trim().trim_end_matches('/')`. -/
def normalizeTrimmed (l : List Char) : List Char :=
  trimEndMatches isSlash (trimChars (stripQueryAndFragment (trimChars l)))

/-- `normalize_base_url` (dicomweb.rs). -/
def normalizeBaseUrl (l : List Char) : List Char :=
  if (normalizeTrimmed l).isEmpty then []
  else if hasRootOnlyPath (normalizeTrimmed l) then
    normalizeTrimmed l ++ dicomWebSuffix
  else normalizeTrimmed l

/-! ## Mammography instance selection (dicomweb.rs) -/

/-- `MetadataInstance` (dicomweb.rs).  `instance_number` is a parsed `i32`;
it is modelled as `Int` (every value produced by the parser is within the
`i32` range, where `Int` ordering and `i32` ordering agree). -/
structure MetadataInstance where
  series_uid : Option String
  instance_uid : String
  view_position : Option String
  laterality : Option String
  instance_number : Option Int
deriving DecidableEq

/-- Rust `char::to_ascii_uppercase`. -/
def toAsciiUppercase (c : Char) : Char :=
  if 'a' ≤ c ∧ c ≤ 'z' then Char.ofNat (c.toNat - 32) else c

/-- `normalize_token` (dicomweb.rs):
`value.unwrap_or_default().trim().to_ascii_uppercase().replace(' ', "")`. -/
def normalizeToken (value : Option String) : List Char :=
  ((trimChars ((value.getD "").toList)).map toAsciiUppercase).filter
    (fun c => c ≠ ' ')

/-- Rust `str::contains` for a literal substring. -/
def containsSub (l pat : List Char) : Bool := (findSubslice l pat).isSome

/-- `classify_laterality` (dicomweb.rs). -/
def classifyLaterality (value : Option String) : Option String :=
  let token := normalizeToken value
  if token.head? = some 'R' ∨ containsSub token ['R', 'I', 'G', 'H', 'T'] then
    some "R"
  else if token.head? = some 'L' ∨ containsSub token ['L', 'E', 'F', 'T'] then
    some "L"
  else none

/-- `classify_view` (dicomweb.rs). -/
def classifyView (value : Option String) : Option String :=
  let token := normalizeToken value
  if containsSub token ['M', 'L', 'O'] then some "MLO"
  else if containsSub token ['C', 'C'] then some "CC"
  else none

/-- The view-rank component of `mammo_sort_key` (CC=0, MLO=1, other=2). -/
def viewRankFromClass : Option String → Nat
  | some "CC" => 0
  | some "MLO" => 1
  | _ => 2

/-- The laterality-rank component of `mammo_sort_key` (R=0, L=1, other=2). -/
def latRankFromClass : Option String → Nat
  | some "R" => 0
  | some "L" => 1
  | _ => 2

def viewRankOf (i : MetadataInstance) : Nat :=
  viewRankFromClass (classifyView i.view_position)

def latRankOf (i : MetadataInstance) : Nat :=
  latRankFromClass (classifyLaterality i.laterality)

/-- `mammo_sort_key` (dicomweb.rs): (view rank, laterality rank, instance
number with unknown mapped to `i32::MAX`, instance UID), compared
lexicographically as Rust tuple `Ord` does. -/
def mammoSortKey (i : MetadataInstance) : Nat ×ₗ (Nat ×ₗ (Int ×ₗ String)) :=
  toLex (viewRankOf i, toLex (latRankOf i,
    toLex (i.instance_number.getD 2147483647, i.instance_uid)))

def mammoLe (a b : MetadataInstance) : Prop := mammoSortKey a ≤ mammoSortKey b

instance : DecidableRel mammoLe :=
  fun a b => inferInstanceAs (Decidable (mammoSortKey a ≤ mammoSortKey b))

instance : IsTotal MetadataInstance mammoLe :=
  ⟨fun a b => le_total (mammoSortKey a) (mammoSortKey b)⟩

instance : IsTrans MetadataInstance mammoLe :=
  ⟨fun _ _ _ h1 h2 => le_trans h1 h2⟩

/-- `sort_instances_for_mammo` (dicomweb.rs): Rust `sort_by_key` is a stable
sort by `mammo_sort_key`; stable insertion sort over the same total preorder
computes the identical permutation. -/
def sortInstancesForMammo (l : List MetadataInstance) : List MetadataInstance :=
  List.insertionSort mammoLe l

/-- One step of the `pick_mammo_quartet` scan (dicomweb.rs): the four match
arms in source order, each filling its slot only when still empty. -/
def pickStep
    (acc : Option MetadataInstance × Option MetadataInstance ×
      Option MetadataInstance × Option MetadataInstance)
    (i : MetadataInstance) :
    Option MetadataInstance × Option MetadataInstance ×
      Option MetadataInstance × Option MetadataInstance :=
  match acc with
  | (rcc, lcc, rmlo, lmlo) =>
    if viewRankOf i = 0 ∧ latRankOf i = 0 ∧ rcc = none then
      (some i, lcc, rmlo, lmlo)
    else if viewRankOf i = 0 ∧ latRankOf i = 1 ∧ lcc = none then
      (rcc, some i, rmlo, lmlo)
    else if viewRankOf i = 1 ∧ latRankOf i = 0 ∧ rmlo = none then
      (rcc, lcc, some i, lmlo)
    else if viewRankOf i = 1 ∧ latRankOf i = 1 ∧ lmlo = none then
      (rcc, lcc, rmlo, some i)
    else acc

/-- `pick_mammo_quartet` (dicomweb.rs): scan filling the four slots, first
match per slot wins; all four must be filled. -/
def pickMammoQuartet (instances : List MetadataInstance) :
    Option (List MetadataInstance) :=
  match instances.foldl pickStep (none, none, none, none) with
  | (some rcc, some lcc, some rmlo, some lmlo) => some [rcc, lcc, rmlo, lmlo]
  | _ => none

/-- The `bail!` message of `reduce_series_instances` (dicomweb.rs). -/
def reduceErrMsg (n : Nat) : String :=
  "Series has " ++ toString n ++
    " instances. Perspecta currently auto-opens 1 image or a mammo quartet of 4."

/-- `reduce_series_instances` (dicomweb.rs). -/
def reduceSeriesInstances (instances : List MetadataInstance) :
    Except String (List MetadataInstance) :=
  if instances.length = 1 then .ok instances
  else
    let sorted := sortInstancesForMammo instances
    if sorted.length = 4 then .ok sorted
    else if 4 < sorted.length then
      match pickMammoQuartet sorted with
      | some quartet => .ok quartet
      | none => .error (reduceErrMsg sorted.length)
    else .error (reduceErrMsg sorted.length)

/-- The classification pair of an instance (view, laterality). -/
def classPair (i : MetadataInstance) : Option String × Option String :=
  (classifyView i.view_position, classifyLaterality i.laterality)

/-- The first two components of `mammo_sort_key`. -/
def rankPair (i : MetadataInstance) : Nat × Nat := (viewRankOf i, latRankOf i)

def rankOfClass (p : Option String × Option String) : Nat × Nat :=
  (viewRankFromClass p.1, latRankFromClass p.2)

/-- Lexicographic order on rank pairs (the order the sort induces on the
first two key components). -/
def rankLe (p q : Nat × Nat) : Prop :=
  p.1 < q.1 ∨ (p.1 = q.1 ∧ p.2 ≤ q.2)

instance : DecidableRel rankLe :=
  fun p q => inferInstanceAs (Decidable (p.1 < q.1 ∨ (p.1 = q.1 ∧ p.2 ≤ q.2)))

instance : IsTrans (Nat × Nat) rankLe :=
  ⟨by
    intro a b c h1 h2
    unfold rankLe at h1 h2 ⊢
    omega⟩

instance : IsAntisymm (Nat × Nat) rankLe :=
  ⟨by
    intro a b h1 h2
    obtain ⟨a1, a2⟩ := a
    obtain ⟨b1, b2⟩ := b
    unfold rankLe at h1 h2
    dsimp only at h1 h2
    rw [Prod.mk.injEq]
    omega⟩

/-- The (view, laterality) classifications of the canonical quartet order
[R/CC, L/CC, R/MLO, L/MLO]. -/
def quartetClassList : List (Option String × Option String) :=
  [(some "CC", some "R"), (some "CC", some "L"),
   (some "MLO", some "R"), (some "MLO", some "L")]

/-- The slot membership test used to characterize the quartet scan. -/
def isSlot (v la : Nat) (i : MetadataInstance) : Bool :=
  viewRankOf i = v ∧ latRankOf i = la

/-! ## Instance download attempts (dicomweb.rs, `download_instance`) -/

/-- The per-attempt failure text, `format!("{url} (Accept: {accept}) => {err:#}")`. -/
def formatAttemptFailure (url accept err : String) : String :=
  url ++ " (Accept: " ++ accept ++ ") => " ++ err

/-- The URL candidates: series-scoped endpoint first when a series UID is
present, then the study-scoped endpoint. -/
def buildDownloadUrls (base study : String) (series : Option String)
    (inst : String) : List String :=
  (match series with
   | some s =>
     [base ++ "/studies/" ++ study ++ "/series/" ++ s ++ "/instances/" ++ inst]
   | none => []) ++
  [base ++ "/studies/" ++ study ++ "/instances/" ++ inst]

/-- The ordered `Accept` header variants. -/
def downloadAccepts : List String :=
  ["application/dicom",
   "application/dicom; transfer-syntax=*",
   "multipart/related; type=application/dicom",
   "multipart/related; type=\"application/dicom\""]

/-- The URL×Accept matrix in trial order (outer loop over URLs, inner loop
over Accept variants). -/
def downloadAttemptPairs (urls accepts : List String) :
    List (String × String) :=
  urls.flatMap (fun u => accepts.map (fun a => (u, a)))

/-- The attempt loop of `download_instance`: the first success wins (its
body is unwrapped); every failure overwrites `last_error` with its own
formatted text.  `attempt` abstracts `http_get_bytes` (network I/O). -/
def runAttempts (attempt : String → String → Except String (List Nat)) :
    List (String × String) → Option String →
      Option (List Nat) × Option String
  | [], lastError => (none, lastError)
  | (url, accept) :: rest, lastError =>
    match attempt url accept with
    | .ok responseBytes => (some (unwrapDicomMultipart responseBytes), lastError)
    | .error err =>
      runAttempts attempt rest (some (formatAttemptFailure url accept err))

/-- Rust `{:?}` rendering of the optional series UID in the failure text. -/
def seriesDebug : Option String → String
  | none => "None"
  | some s => "Some(\"" ++ s ++ "\")"

/-- `download_instance` (dicomweb.rs), modelled up to the final filesystem
write: the downloaded (multipart-unwrapped) bytes, or the failure message
built from the header and `last_error`. -/
def downloadInstanceModel
    (attempt : String → String → Except String (List Nat))
    (base study : String) (series : Option String) (inst : String) :
    Except String (List Nat) :=
  match runAttempts attempt
      (downloadAttemptPairs (buildDownloadUrls base study series inst)
        downloadAccepts) none with
  | (some bytes, _) => .ok bytes
  | (none, lastError) =>
    .error ("Failed downloading DICOM instance from study " ++ study ++
      ", series " ++ seriesDebug series ++ ", instance " ++ inst ++ ": " ++
      lastError.getD "no successful download attempts")

/-- An attempt function for the counterexample: every attempt fails, the
first Accept variant with message `ALPHA`, all others with `BETA`. -/
def c4Attempt : String → String → Except String (List Nat) :=
  fun _ accept =>
    .error (if accept = "application/dicom" then "ALPHA" else "BETA")

instance {ε α : Type} [DecidableEq ε] [DecidableEq α] :
    DecidableEq (Except ε α) := fun a b =>
  match a, b with
  | .ok x, .ok y => decidable_of_iff (x = y) (by simp)
  | .ok _, .error _ => isFalse (by simp)
  | .error _, .ok _ => isFalse (by simp)
  | .error x, .error y => decidable_of_iff (x = y) (by simp)

/-! ## Metadata JSON splitting and parsing (dicomweb.rs) -/

/-- The loop of `split_top_level_json_objects` (dicomweb.rs), over the
remaining characters; `input` is the full text, `index` the position of the
current character (the Rust code indexes bytes, modelled here as character
positions), and `acc` the object slices pushed so far.  A top-level closing
brace fails immediately; at end of input a nonzero depth or an open string
literal fails with the unbalanced error, otherwise the collected slices are
returned. -/
def splitLoop (input : List Char) :
    List Char → Nat → Nat → Option Nat → Bool → Bool → List (List Char) →
      Except String (List (List Char))
  | [], _, depth, _, inString, _, acc =>
    if depth ≠ 0 ∨ inString = true then
      .error "Unbalanced JSON while parsing metadata"
    else .ok acc
  | ch :: rest, index, depth, objStart, inString, escaped, acc =>
    if inString then
      if escaped then splitLoop input rest (index + 1) depth objStart true false acc
      else if ch = '\\' then
        splitLoop input rest (index + 1) depth objStart true true acc
      else if ch = '"' then
        splitLoop input rest (index + 1) depth objStart false escaped acc
      else splitLoop input rest (index + 1) depth objStart true escaped acc
    else if ch = '"' then
      splitLoop input rest (index + 1) depth objStart true escaped acc
    else if ch = '\x7b' then
      splitLoop input rest (index + 1) (depth + 1)
        (if depth = 0 then some index else objStart) false escaped acc
    else if ch = '\x7d' then
      if depth = 0 then .error "Unexpected closing brace in JSON"
      else
        splitLoop input rest (index + 1) (depth - 1)
          (if depth - 1 = 0 then none else objStart) false escaped
          (if depth - 1 = 0 then
            match objStart with
            | some start => acc ++ [(input.take (index + 1)).drop start]
            | none => acc
           else acc)
    else splitLoop input rest (index + 1) depth objStart false escaped acc

/-- `split_top_level_json_objects` (dicomweb.rs). -/
def splitTopLevelJsonObjects (input : List Char) :
    Except String (List (List Char)) :=
  splitLoop input input 0 0 none false false []

/-- The state automaton of the splitter: the final (depth, in_string,
escaped) state, or `none` when a closing brace is met at depth 0.  It mirrors
the state updates of `splitLoop` exactly, dropping only the slice
bookkeeping. -/
def jsonScanC10 : List Char → Nat → Bool → Bool → Option (Nat × Bool × Bool)
  | [], depth, inString, escaped => some (depth, inString, escaped)
  | ch :: rest, depth, inString, escaped =>
    if inString then
      if escaped then jsonScanC10 rest depth true false
      else if ch = '\\' then jsonScanC10 rest depth true true
      else if ch = '"' then jsonScanC10 rest depth false escaped
      else jsonScanC10 rest depth true escaped
    else if ch = '"' then jsonScanC10 rest depth true escaped
    else if ch = '\x7b' then jsonScanC10 rest (depth + 1) false escaped
    else if ch = '\x7d' then
      if depth = 0 then none
      else jsonScanC10 rest (depth - 1) false escaped
    else jsonScanC10 rest depth false escaped

/-- Rust `u8::is_ascii_whitespace` on the characters scanned by
`parse_first_json_token`. -/
def isAsciiWhitespaceChar (c : Char) : Bool :=
  c.toNat ∈ [32, 9, 10, 12, 13]

/-- The characters ending an unquoted JSON token. -/
def isTokenTerminator (c : Char) : Bool :=
  c = ',' ∨ c = ']'

/-- Position of the closing quote in the remainder of a JSON string literal
(the escape flag mirrors the Rust loop); `none` when unterminated. -/
def quotedTokenLen : List Char → Bool → Option Nat
  | [], _ => none
  | b :: bs, escaped =>
    if escaped then (quotedTokenLen bs false).map (· + 1)
    else if b = '\\' then (quotedTokenLen bs true).map (· + 1)
    else if b = '"' then some 0
    else (quotedTokenLen bs false).map (· + 1)

/-- `parse_first_json_token` (dicomweb.rs): skip ASCII whitespace; `]` or end
means no token; a quoted token runs to its closing quote (both quotes
included); otherwise the token runs to the first `,` or `]` and is
trimmed. -/
def parseFirstJsonToken (value : List Char) : Option (List Char) :=
  match value.dropWhile isAsciiWhitespaceChar with
  | [] => none
  | c :: cs =>
    if c = ']' then none
    else if c = '"' then
      match quotedTokenLen cs false with
      | some n => some ('"' :: cs.take (n + 1))
      | none => none
    else
      some (trimChars ((c :: cs).takeWhile (fun b => !(isTokenTerminator b))))

/-- One hexadecimal digit, as in Rust's `from_str_radix(_, 16)`. -/
def hexDigitVal (c : Char) : Option Nat :=
  if '0' ≤ c ∧ c ≤ '9' then some (c.toNat - 48)
  else if 'a' ≤ c ∧ c ≤ 'f' then some (c.toNat - 87)
  else if 'A' ≤ c ∧ c ≤ 'F' then some (c.toNat - 55)
  else none

def parseHexGo : List Char → Nat → Option Nat
  | [], acc => some acc
  | c :: cs, acc =>
    match hexDigitVal c with
    | some v => parseHexGo cs (acc * 16 + v)
    | none => none

/-- Rust `u16::from_str_radix(s, 16)`: an optional sign, then hex digits; a
negative value only parses as zero, and the result must fit in 16 bits. -/
def parseHexU16 (s : List Char) : Option Nat :=
  match s with
  | [] => none
  | '+' :: rest =>
    if rest = [] then none
    else (parseHexGo rest 0).bind (fun n => if n < 65536 then some n else none)
  | '-' :: rest =>
    if rest = [] then none
    else (parseHexGo rest 0).bind (fun n => if n = 0 then some 0 else none)
  | _ => (parseHexGo s 0).bind (fun n => if n < 65536 then some n else none)

/-- Rust `char::from_u32`: rejects surrogates and out-of-range values. -/
def charFromU32 (n : Nat) : Option Char :=
  if n < 55296 ∨ (57343 < n ∧ n < 1114112) then some (Char.ofNat n) else none

/-- `unescape_json_string` (dicomweb.rs): standard JSON escapes, a lone
trailing backslash ends the output, `\u` takes the next four characters as
hex and pushes the code point when it is a valid `char`, any other escape
pushes the escaped character itself. -/
def unescapeJsonString : List Char → List Char
  | [] => []
  | c :: rest =>
    if c ≠ '\\' then c :: unescapeJsonString rest
    else
      match rest with
      | [] => []
      | n :: rest' =>
        if n = '"' then '"' :: unescapeJsonString rest'
        else if n = '\\' then '\\' :: unescapeJsonString rest'
        else if n = '/' then '/' :: unescapeJsonString rest'
        else if n = 'b' then '\x08' :: unescapeJsonString rest'
        else if n = 'f' then '\x0c' :: unescapeJsonString rest'
        else if n = 'n' then '\n' :: unescapeJsonString rest'
        else if n = 'r' then '\r' :: unescapeJsonString rest'
        else if n = 't' then '\t' :: unescapeJsonString rest'
        else if n = 'u' then
          match rest' with
          | h1 :: h2 :: h3 :: h4 :: tail =>
            (match parseHexU16 [h1, h2, h3, h4] with
             | some cp =>
               match charFromU32 cp with
               | some decoded => [decoded]
               | none => []
             | none => []) ++ unescapeJsonString tail
          | _ => []
        else n :: unescapeJsonString rest'

/-- `first_token_to_string` (dicomweb.rs): trim; empty or `null` is nothing;
a properly quoted token is unescaped without its quotes; anything else is
kept as-is. -/
def firstTokenToString (token : List Char) : Option (List Char) :=
  let t := trimChars token
  if t = [] ∨ t = "null".toList then none
  else if 2 ≤ t.length ∧ t.head? = some '"' ∧ t.getLast? = some '"' then
    some (unescapeJsonString ((t.drop 1).take (t.length - 2)))
  else some t

def TAG_SOP_INSTANCE_UID : List Char := "00080018".toList

def TAG_SERIES_INSTANCE_UID : List Char := "0020000E".toList

def TAG_INSTANCE_NUMBER : List Char := "00200013".toList

def TAG_VIEW_POSITION : List Char := "00185101".toList

def TAG_IMAGE_LATERALITY : List Char := "00200062".toList

def TAG_LATERALITY : List Char := "00200060".toList

/-- `first_tag_string` (dicomweb.rs): find the quoted tag, then `"Value"`,
then the opening bracket of its array, and convert the first token. -/
def firstTagString (object : List Char) (tag : List Char) :
    Option (List Char) :=
  match findSubslice object ('"' :: (tag ++ ['"'])) with
  | none => none
  | some tagPos =>
    let tail := object.drop (tagPos + (tag.length + 2))
    match findSubslice tail ("\"Value\"".toList) with
    | none => none
    | some valuePos =>
      let afterValue := tail.drop (valuePos + 7)
      match findSubslice afterValue ['['] with
      | none => none
      | some arrayStart =>
        match parseFirstJsonToken (afterValue.drop (arrayStart + 1)) with
        | none => none
        | some tok => firstTokenToString tok

def parseDigitsGo : List Char → Nat → Option Nat
  | [], acc => some acc
  | c :: cs, acc =>
    if '0' ≤ c ∧ c ≤ '9' then parseDigitsGo cs (acc * 10 + (c.toNat - 48))
    else none

/-- Rust `str::parse::<i32>`: optional sign, decimal digits, i32 range. -/
def parseI32 (s : List Char) : Option Int :=
  match s with
  | [] => none
  | '+' :: rest =>
    if rest = [] then none
    else (parseDigitsGo rest 0).bind
      (fun n => if n ≤ 2147483647 then some (n : Int) else none)
  | '-' :: rest =>
    if rest = [] then none
    else (parseDigitsGo rest 0).bind
      (fun n => if n ≤ 2147483648 then some (-(n : Int)) else none)
  | _ => (parseDigitsGo s 0).bind
      (fun n => if n ≤ 2147483647 then some (n : Int) else none)

/-- The per-object body of the `parse_metadata_instances` loop: an object
with no (trimmed-nonempty) SOP Instance UID is skipped. -/
def instanceFromObject (obj : List Char) : Option MetadataInstance :=
  match firstTagString obj TAG_SOP_INSTANCE_UID with
  | some value =>
    if trimChars value = [] then none
    else some
      ⟨(firstTagString obj TAG_SERIES_INSTANCE_UID).map String.mk,
       String.mk value,
       (firstTagString obj TAG_VIEW_POSITION).map String.mk,
       ((firstTagString obj TAG_IMAGE_LATERALITY).or
         (firstTagString obj TAG_LATERALITY)).map String.mk,
       (firstTagString obj TAG_INSTANCE_NUMBER).bind parseI32⟩
  | none => none

/-- `parse_metadata_instances` (dicomweb.rs); a splitter failure is wrapped
with the parsing context (anyhow `with_context`, rendered with the usual
colon join). -/
def parseMetadataInstances (json : List Char) :
    Except String (List MetadataInstance) :=
  match splitTopLevelJsonObjects json with
  | .error e => .error ("DICOMweb metadata JSON parsing failed: " ++ e)
  | .ok objectSlices => .ok (objectSlices.filterMap instanceFromObject)

/-! ## Concrete inputs used by witnesses and counterexamples -/

def wInstCCR : MetadataInstance := ⟨none, "u1", some "CC", some "R", some 1⟩

def wInstCCL : MetadataInstance := ⟨none, "u2", some "CC", some "L", some 2⟩

def wInstMLOR : MetadataInstance := ⟨none, "u3", some "MLO", some "R", some 3⟩

def wInstMLOL : MetadataInstance := ⟨none, "u4", some "MLO", some "L", some 4⟩

def wInstCCR2 : MetadataInstance := ⟨none, "u5", some "CC", some "R", some 5⟩

def wInstCCL2 : MetadataInstance := ⟨none, "u6", some "CC", some "L", some 6⟩

def wInstMLOR2 : MetadataInstance := ⟨none, "u7", some "MLO", some "R", some 7⟩

/-- Six instances with no MLO/L representative. -/
def wSixMissing : List MetadataInstance :=
  [wInstCCR, wInstCCL, wInstMLOR, wInstCCR2, wInstCCL2, wInstMLOR2]

/-- A bare-magic stream: `DICM`, then `(0002,0002) UI len 4 "ABCD"`, then a
group-`0x0008` element marking the end of the meta group. -/
def c1Bytes : List Nat :=
  [68, 73, 67, 77, 2, 0, 2, 0, 85, 73, 4, 0, 65, 66, 67, 68,
   8, 0, 22, 0, 85, 73, 2, 0, 49, 0]

/-- The repaired form of `c1Bytes`: the synthesized `(0002,0000)` element
(value 12, the byte span of the single group-2 element) inserted at offset 4. -/
def c1Out : List Nat :=
  [68, 73, 67, 77] ++ [2, 0, 0, 0, 85, 76, 4, 0, 12, 0, 0, 0] ++
    [2, 0, 2, 0, 85, 73, 4, 0, 65, 66, 67, 68, 8, 0, 22, 0, 85, 73, 2, 0, 49, 0]

/-- A stream whose group-2 run ends flush at end of input, never reaching a
non-group-2 tag: `DICM`, then `(0002,0010) UI len 2 "ab"`. -/
def c6Bytes : List Nat :=
  [68, 73, 67, 77, 2, 0, 16, 0, 85, 73, 2, 0, 97, 98]

/-- What `repair` produces for `c6Bytes` (span 10 inserted at offset 4). -/
def c6Out : List Nat :=
  [68, 73, 67, 77] ++ [2, 0, 0, 0, 85, 76, 4, 0, 10, 0, 0, 0] ++
    [2, 0, 16, 0, 85, 73, 2, 0, 97, 98]

/-! ## Theorems -/

theorem readExplicitVrElementLength_hlen {bytes : List Nat} {position : Nat}
    {vr : Nat × Nat} {hlen vlen : Nat}
    (h : readExplicitVrElementLength bytes position vr = some (hlen, vlen)) :
    hlen = 8 ∨ hlen = 12 := by
  unfold readExplicitVrElementLength at h
  split at h
  · split at h
    · exact absurd h (by simp)
    · dsimp only at h
      split at h
      · exact absurd h (by simp)
      · rw [Option.some.injEq, Prod.mk.injEq] at h
        right; exact h.1.symm
  · rw [Option.some.injEq, Prod.mk.injEq] at h
    left; exact h.1.symm

theorem scanGo_eq_spec (bytes : List Nat) :
    ∀ (fuel position : Nat), 1 ≤ fuel → bytes.length < position + fuel →
      scanGo bytes fuel position = scanGoSpec bytes position := by
  intro fuel
  induction fuel with
  | zero => intro position h1 _; omega
  | succ fuel ih =>
    intro position _ hlt
    rw [scanGoSpec.eq_def]
    show (if position + 8 ≤ bytes.length then _ else some position) = _
    by_cases h8 : position + 8 ≤ bytes.length
    · rw [if_pos h8, if_pos h8]
      by_cases hg : u16le bytes position ≠ 2
      · rw [if_pos hg, if_pos hg]
      · rw [if_neg hg, if_neg hg]
        rcases he : readExplicitVrElementLength bytes position
            (byteAt bytes (position + 4), byteAt bytes (position + 5)) with
            _ | ⟨hlen, vlen⟩
        · rfl
        · dsimp only
          by_cases hn : position + hlen + vlen ≤ bytes.length
          · rw [if_pos hn, if_pos hn]
            have hh := readExplicitVrElementLength_hlen he
            exact ih (position + hlen + vlen) (by omega) (by omega)
          · rw [if_neg hn, if_neg hn]
    · rw [if_neg h8, if_neg h8]

/-- C1: when the stream starts with the DICM prefix (detected with or without
the 128-byte preamble) and the first File Meta element is a group-2 element
other than `(0002,0000)`, a successful repair inserts exactly the 12-byte
synthesized group-length element — 2-byte group 2, 2-byte element 0, VR "UL",
2-byte length 4, 4-byte little-endian value equal to the byte span of the
group-2 run — immediately after the prefix, preserving all original bytes. -/
theorem repair_inserts_group_length (bytes out : List Nat) (off : Nat)
    (hoff : detectDicomPrefixOffset bytes = some off)
    (hg : u16le bytes off = 2) (he : u16le bytes (off + 2) ≠ 0)
    (hrep : repairMissingMetaGroupLength bytes = some out) :
    ∃ span, scanMetaGroupLenWithoutGroupLength bytes off = some span ∧
      span < 4294967296 ∧
      out = bytes.take off ++
        ([2, 0, 0, 0, 85, 76, 4, 0] ++
          [span % 256, span / 256 % 256, span / 65536 % 256,
           span / 16777216 % 256]) ++ bytes.drop off := by
  unfold repairMissingMetaGroupLength at hrep
  rw [hoff] at hrep
  dsimp only at hrep
  split at hrep
  · exact absurd hrep (by simp)
  · split at hrep
    · exact absurd hrep (by simp)
    · split at hrep
      · exact absurd hrep (by simp)
      · rename_i span hscan
        split at hrep
        · rename_i hlt
          rw [Option.some.injEq] at hrep
          exact ⟨span, hscan, hlt, hrep.symm⟩
        · exact absurd hrep (by simp)

theorem repair_inserts_group_length_witness :
    ∃ span, scanMetaGroupLenWithoutGroupLength c1Bytes 4 = some span ∧
      span < 4294967296 ∧
      c1Out = c1Bytes.take 4 ++
        ([2, 0, 0, 0, 85, 76, 4, 0] ++
          [span % 256, span / 256 % 256, span / 65536 % 256,
           span / 16777216 % 256]) ++ c1Bytes.drop 4 :=
  repair_inserts_group_length c1Bytes c1Out 4 (by decide) (by decide)
    (by decide) (by decide)

/-- C5 counterexample: the VR "OW" (bytes 79, 87) also takes the 12-byte
header with the 32-bit length field, although it is absent from the family
the claim lists as exhaustive. -/
theorem vrFamily_counterexample :
    readExplicitVrElementLength (List.replicate 12 0) 0 (79, 87) = some (12, 0) ∧
    (79, 87) ∉ claimedU32VrFamilySpec := by decide

/-- C5 (amended): the 12-byte header with the 32-bit length field is used
exactly for the VR family OB/OD/OF/OL/SQ/UC/UR/UT/UN *plus OW*; all other
VRs use the 8-byte header with the 16-bit length; the scan stops exactly at
the first non-group-2 tag (or at the end of the readable buffer). -/
theorem vrFamily_header_forms :
    (∀ vr, usesU32Len vr = true ↔ vr ∈ claimedU32VrFamilySpec ∨ vr = (79, 87)) ∧
    (∀ bytes position vr hlen vlen,
      readExplicitVrElementLength bytes position vr = some (hlen, vlen) →
      (usesU32Len vr = true → hlen = 12 ∧ vlen = u32le bytes (position + 8)) ∧
      (usesU32Len vr = false → hlen = 8 ∧ vlen = u16le bytes (position + 6))) ∧
    (∀ bytes fuel p q, scanGo bytes fuel p = some q →
      bytes.length < q + 8 ∨ u16le bytes q ≠ 2) := by
  refine ⟨?_, ?_, ?_⟩
  · intro vr
    simp only [usesU32Len, claimedU32VrFamilySpec, List.mem_cons,
      List.not_mem_nil, or_false, decide_eq_true_eq]
    tauto
  · intro bytes position vr hlen vlen h
    unfold readExplicitVrElementLength at h
    split at h
    · rename_i hu
      split at h
      · exact absurd h (by simp)
      · dsimp only at h
        split at h
        · exact absurd h (by simp)
        · rw [Option.some.injEq, Prod.mk.injEq] at h
          exact ⟨fun _ => ⟨h.1.symm, h.2.symm⟩, fun hf => absurd hu (by simp [hf])⟩
    · rename_i hu
      rw [Option.some.injEq, Prod.mk.injEq] at h
      rw [Bool.not_eq_true] at hu
      exact ⟨fun ht => absurd ht (by simp [hu]), fun _ => ⟨h.1.symm, h.2.symm⟩⟩
  · intro bytes fuel
    induction fuel with
    | zero => intro p q h; exact absurd h (by simp [scanGo])
    | succ fuel ih =>
      intro p q h
      rw [scanGo] at h
      split at h
      · split at h
        · rename_i hne
          rw [Option.some.injEq] at h
          subst h
          exact Or.inr hne
        · split at h
          · exact absurd h (by simp)
          · split at h
            · exact ih _ _ h
            · exact absurd h (by simp)
      · rename_i h8
        rw [Option.some.injEq] at h
        subst h
        exact Or.inl (by omega)

theorem vrFamily_header_forms_witness :
    ((12, 0) = ((12 : Nat), u32le (List.replicate 12 0) (0 + 8)) ∧
      (79, 87) ∈ claimedU32VrFamilySpec ∨ (79, 87) = ((79 : Nat), (87 : Nat))) ∧
    (c6Bytes.length < 14 + 8 ∨ u16le c6Bytes 14 ≠ 2) := by
  constructor
  · right; rfl
  · exact vrFamily_header_forms.2.2 c6Bytes (c6Bytes.length + 1) 4 14 (by decide)

/-- C6 counterexample: a stream whose group-2 run ends at end of input
without ever reaching a non-group-2 tag (an "unterminated group-2 run") is
nevertheless repaired: `repair` returns a patched buffer, not `None`. -/
theorem repair_none_counterexample :
    u16le c6Bytes 4 = 2 ∧ u16le c6Bytes 6 ≠ 0 ∧
    scanGo c6Bytes (c6Bytes.length + 1) 4 = some c6Bytes.length ∧
    repairMissingMetaGroupLength c6Bytes = some c6Out := by decide

/-- C6 (amended): `repair` returns `None` exactly when no DICM prefix is
detected, the first tag is truncated, the first meta element is not a
group-2 element or is already the group-length element `(0002,0000)`, the
group-2 scan fails (truncated or overrunning element, undefined length, or
empty span), or the span overflows 32 bits.  A group-2 run that ends cleanly
at end of input without a following non-group-2 tag is still repaired. -/
theorem repair_none_iff (bytes : List Nat) :
    repairMissingMetaGroupLength bytes = none ↔
      ¬ ∃ off span, detectDicomPrefixOffset bytes = some off ∧
          off + 4 ≤ bytes.length ∧ u16le bytes off = 2 ∧
          u16le bytes (off + 2) ≠ 0 ∧
          scanMetaGroupLenWithoutGroupLength bytes off = some span ∧
          span < 4294967296 := by
  rcases hdet : detectDicomPrefixOffset bytes with _ | off
  · simp [repairMissingMetaGroupLength, hdet]
  · unfold repairMissingMetaGroupLength
    rw [hdet]
    dsimp only
    by_cases h4 : bytes.length < off + 4
    · rw [if_pos h4]
      simp only [true_iff]
      rintro ⟨off', span, hoff', h4', _⟩
      rw [Option.some.injEq] at hoff'
      subst hoff'
      omega
    · rw [if_neg h4]
      by_cases hge : u16le bytes off ≠ 2 ∨ u16le bytes (off + 2) = 0
      · rw [if_pos hge]
        simp only [true_iff]
        rintro ⟨off', span, hoff', _, hg', he', _⟩
        rw [Option.some.injEq] at hoff'
        subst hoff'
        tauto
      · rw [if_neg hge]
        push_neg at hge
        rcases hscan : scanMetaGroupLenWithoutGroupLength bytes off with _ | span
        · dsimp only
          simp only [eq_self_iff_true, true_iff]
          rintro ⟨off', span, hoff', _, _, _, hscan', _⟩
          rw [Option.some.injEq] at hoff'
          subst hoff'
          rw [hscan] at hscan'
          exact absurd hscan' (by simp)
        · dsimp only
          by_cases hlt : span < 4294967296
          · rw [if_pos hlt]
            exact iff_of_false (by simp)
              (not_not_intro ⟨off, span, rfl, by omega, hge.1, hge.2, hscan, hlt⟩)
          · rw [if_neg hlt]
            simp only [true_iff]
            rintro ⟨off', span', hoff', _, _, _, hscan', hlt'⟩
            rw [Option.some.injEq] at hoff'
            subst hoff'
            rw [hscan, Option.some.injEq] at hscan'
            subst hscan'
            omega

/-- C8: the frame count is 1 when the tag is absent, the value itself when
present and at least 1, an error when present and below 1; every successful
result is at least 1. -/
theorem frameCount_spec :
    frameCountFromTag none = .ok 1 ∧
    (∀ v : Int, 1 ≤ v → frameCountFromTag (some v) = .ok v.toNat) ∧
    (∀ v : Int, v < 1 → ∃ msg, frameCountFromTag (some v) = .error msg) ∧
    (∀ o n, frameCountFromTag o = .ok n → 1 ≤ n) := by
  refine ⟨rfl, ?_, ?_, ?_⟩
  · intro v hv
    simp only [frameCountFromTag, if_pos (by omega : (0:Int) < v)]
  · intro v hv
    exact ⟨"Invalid NumberOfFrames=" ++ toString v ++ " (must be >= 1)",
      by simp only [frameCountFromTag, if_neg (by omega : ¬ (0:Int) < v)]⟩
  · intro o n h
    match o with
    | none =>
      simp only [frameCountFromTag, Except.ok.injEq] at h
      omega
    | some v =>
      simp only [frameCountFromTag] at h
      split at h
      · rename_i hv
        rw [Except.ok.injEq] at h
        omega
      · exact absurd h (by simp)

theorem frameCount_spec_witness :
    frameCountFromTag (some 5) = .ok 5 ∧
    (∃ msg, frameCountFromTag (some 0) = .error msg) ∧
    1 ≤ 5 :=
  ⟨frameCount_spec.2.1 5 (by decide), frameCount_spec.2.2.1 0 (by decide),
    frameCount_spec.2.2.2 (some 5) 5 (frameCount_spec.2.1 5 (by decide))⟩

/-! ### First-occurrence characterization of `findSubslice` -/

theorem findSubGo_eq_some {α : Type} [DecidableEq α] (needle : List α)
    (hne : needle ≠ []) :
    ∀ (l : List α) (k i : Nat), needle <+: l.drop k →
      (∀ m, m < k → ¬ needle <+: l.drop m) →
      findSubGo needle l i = some (i + k) := by
  intro l
  induction l with
  | nil =>
    intro k i hk _
    rw [List.drop_nil, List.prefix_nil] at hk
    exact absurd hk hne
  | cons a t ih =>
    intro k i hk hmin
    match k with
    | 0 =>
      rw [List.drop_zero] at hk
      rw [findSubGo, if_pos (List.isPrefixOf_iff_prefix.mpr hk)]
      rfl
    | k' + 1 =>
      have h0 := hmin 0 (by omega)
      rw [List.drop_zero] at h0
      rw [findSubGo, if_neg (fun hp => h0 (List.isPrefixOf_iff_prefix.mp hp))]
      rw [List.drop_succ_cons] at hk
      have hmin' : ∀ m, m < k' → ¬ needle <+: t.drop m := by
        intro m hm
        have := hmin (m + 1) (by omega)
        rwa [List.drop_succ_cons] at this
      rw [ih k' (i + 1) hk hmin']
      congr 1
      omega

theorem findSubGo_eq_none {α : Type} [DecidableEq α] (needle : List α) :
    ∀ (l : List α) (i : Nat), (∀ m, ¬ needle <+: l.drop m) →
      findSubGo needle l i = none := by
  intro l
  induction l with
  | nil => intro i _; rfl
  | cons a t ih =>
    intro i hall
    have h0 := hall 0
    rw [List.drop_zero] at h0
    rw [findSubGo, if_neg (fun hp => h0 (List.isPrefixOf_iff_prefix.mp hp))]
    refine ih (i + 1) ?_
    intro m
    have := hall (m + 1)
    rwa [List.drop_succ_cons] at this

theorem findSubslice_eq_some {α : Type} [DecidableEq α]
    {haystack needle : List α} {k : Nat} (hne : needle ≠ [])
    (hk : needle <+: haystack.drop k)
    (hmin : ∀ m, m < k → ¬ needle <+: haystack.drop m) :
    findSubslice haystack needle = some k := by
  have h1 := hk.length_le
  rw [List.length_drop] at h1
  have hpos : 0 < needle.length := List.length_pos.mpr hne
  unfold findSubslice
  rw [if_neg (by push_neg; exact ⟨hne, by omega⟩)]
  have := findSubGo_eq_some needle hne haystack k 0 hk hmin
  simpa using this

theorem findSubslice_eq_none {α : Type} [DecidableEq α]
    {haystack needle : List α}
    (hall : ∀ m, ¬ needle <+: haystack.drop m) :
    findSubslice haystack needle = none := by
  unfold findSubslice
  split
  · rfl
  · exact findSubGo_eq_none needle haystack 0 hall

/-- No occurrence of a needle can start inside `A` when the needle's first
element does not occur in `A`. -/
theorem not_prefix_cons_of_notMem {α : Type} {a : α} {r A B : List α}
    (ha : a ∉ A) {j : Nat} (hj : j < A.length) :
    ¬ (a :: r) <+: (A ++ B).drop j := by
  intro hp
  have hhead : ((A ++ B).drop j).head? = some a := by
    rcases hp with ⟨t, ht⟩
    rw [← ht]
    rfl
  rw [List.head?_drop, List.getElem?_append] at hhead
  rw [if_pos hj] at hhead
  rw [List.getElem?_eq_some_iff] at hhead
  rcases hhead with ⟨h, hEq⟩
  exact ha (hEq ▸ List.getElem_mem h)

/-- An occurrence of the needle anywhere puts each needle element into the
haystack. -/
theorem mem_of_prefix_drop {α : Type} {needle hay : List α} {m : Nat} {x : α}
    (hx : x ∈ needle) (hp : needle <+: hay.drop m) : x ∈ hay :=
  (List.drop_sublist m hay).subset (hp.sublist.subset hx)

/-- An occurrence whose window fits inside `X` is an occurrence in `X`. -/
theorem prefix_drop_bounded {α : Type} {needle X Y : List α} {j : Nat}
    (hfit : j + needle.length ≤ X.length)
    (hp : needle <+: (X ++ Y).drop j) : needle <+: X.drop j := by
  rw [List.drop_append_of_le_length (by omega)] at hp
  rw [List.prefix_iff_eq_take] at hp
  have h2 : List.take needle.length (List.drop j X ++ Y) =
      List.take needle.length (List.drop j X) :=
    List.take_append_of_le_length (by rw [List.length_drop]; omega)
  exact List.prefix_iff_eq_take.mpr (hp.trans h2)

/-! ### Multipart extraction -/

theorem extract_crlf_case (bd hs P rest : List Nat)
    (hbd : bd ≠ []) (h13 : (13 : Nat) ∉ bd)
    (hhs : ∀ j, j < hs.length →
      ¬ [13, 10, 13, 10] <+: (hs ++ [13, 10, 13, 10]).drop j)
    (hP : ∀ j, j < P.length →
      ¬ ([13, 10, 45, 45] ++ bd) <+: (P ++ ([13, 10, 45, 45] ++ bd)).drop j) :
    extractDicomFromMultipart
      ([45, 45] ++ bd ++ [13, 10] ++ hs ++ [13, 10, 13, 10] ++ P ++
        [13, 10, 45, 45] ++ bd ++ rest) = some P := by
  have hbdpos : 0 < bd.length := List.length_pos.mpr hbd
  have e1 : [45, 45] ++ bd ++ [13, 10] ++ hs ++ [13, 10, 13, 10] ++ P ++
      [13, 10, 45, 45] ++ bd ++ rest
      = ([45, 45] ++ bd) ++ ([13, 10] ++
          (hs ++ ([13, 10, 13, 10] ++ (P ++ (([13, 10, 45, 45] ++ bd) ++ rest))))) := by
    simp [List.append_assoc]
  rw [e1]
  have h13A : (13 : Nat) ∉ [45, 45] ++ bd := by
    intro h
    rcases List.mem_append.mp h with h | h
    · simp at h
    · exact h13 h
  have hALen : ([45, 45] ++ bd).length = 2 + bd.length := by simp; omega
  have hfind1 : findSubslice (([45, 45] ++ bd) ++ ([13, 10] ++
      (hs ++ ([13, 10, 13, 10] ++ (P ++ (([13, 10, 45, 45] ++ bd) ++ rest))))))
      [13, 10] = some (2 + bd.length) := by
    apply findSubslice_eq_some (by decide)
    · rw [show 2 + bd.length = ([45, 45] ++ bd).length from hALen.symm,
        List.drop_left]
      exact List.prefix_append _ _
    · intro m hm
      exact not_prefix_cons_of_notMem h13A (by omega)
  have hline : findLineEnd (([45, 45] ++ bd) ++ ([13, 10] ++
      (hs ++ ([13, 10, 13, 10] ++ (P ++ (([13, 10, 45, 45] ++ bd) ++ rest))))))
      = some (2 + bd.length, 2) := by
    unfold findLineEnd
    rw [hfind1]
  unfold extractDicomFromMultipart
  rw [hline]
  dsimp only
  have htake : List.take (2 + bd.length) (([45, 45] ++ bd) ++ ([13, 10] ++
      (hs ++ ([13, 10, 13, 10] ++ (P ++ (([13, 10, 45, 45] ++ bd) ++ rest))))))
      = [45, 45] ++ bd := by
    rw [show 2 + bd.length = ([45, 45] ++ bd).length from hALen.symm,
      List.take_left]
  rw [htake]
  rw [if_pos ⟨List.isPrefixOf_iff_prefix.mpr (List.prefix_append _ _),
    by rw [hALen]; omega⟩]
  have hdrop1 : List.drop (2 + bd.length + 2) (([45, 45] ++ bd) ++ ([13, 10] ++
      (hs ++ ([13, 10, 13, 10] ++ (P ++ (([13, 10, 45, 45] ++ bd) ++ rest))))))
      = hs ++ ([13, 10, 13, 10] ++ (P ++ (([13, 10, 45, 45] ++ bd) ++ rest))) := by
    have e2 : ([45, 45] ++ bd) ++ ([13, 10] ++
        (hs ++ ([13, 10, 13, 10] ++ (P ++ (([13, 10, 45, 45] ++ bd) ++ rest)))))
        = (([45, 45] ++ bd) ++ [13, 10]) ++
          (hs ++ ([13, 10, 13, 10] ++ (P ++ (([13, 10, 45, 45] ++ bd) ++ rest)))) := by
      simp [List.append_assoc]
    rw [e2, show 2 + bd.length + 2 = (([45, 45] ++ bd) ++ [13, 10]).length by
      simp; omega, List.drop_left]
  rw [hdrop1]
  have hfind2 : findSubslice
      (hs ++ ([13, 10, 13, 10] ++ (P ++ (([13, 10, 45, 45] ++ bd) ++ rest))))
      [13, 10, 13, 10] = some hs.length := by
    apply findSubslice_eq_some (by decide)
    · rw [List.drop_left]
      exact List.prefix_append _ _
    · intro m hm hp
      apply hhs m hm
      apply prefix_drop_bounded (Y := P ++ (([13, 10, 45, 45] ++ bd) ++ rest))
      · simp
        omega
      · rw [List.append_assoc]
        exact hp
  have hheaders : findHeadersEnd
      (hs ++ ([13, 10, 13, 10] ++ (P ++ (([13, 10, 45, 45] ++ bd) ++ rest))))
      = some (hs.length, 4) := by
    unfold findHeadersEnd
    rw [hfind2]
  rw [hheaders]
  dsimp only
  have hdrop2 : List.drop (2 + bd.length + 2 + hs.length + 4)
      (([45, 45] ++ bd) ++ ([13, 10] ++
        (hs ++ ([13, 10, 13, 10] ++ (P ++ (([13, 10, 45, 45] ++ bd) ++ rest))))))
      = P ++ (([13, 10, 45, 45] ++ bd) ++ rest) := by
    have e3 : ([45, 45] ++ bd) ++ ([13, 10] ++
        (hs ++ ([13, 10, 13, 10] ++ (P ++ (([13, 10, 45, 45] ++ bd) ++ rest)))))
        = ((([45, 45] ++ bd) ++ [13, 10]) ++ (hs ++ [13, 10, 13, 10])) ++
          (P ++ (([13, 10, 45, 45] ++ bd) ++ rest)) := by
      simp [List.append_assoc]
    rw [e3, show 2 + bd.length + 2 + hs.length + 4
        = ((([45, 45] ++ bd) ++ [13, 10]) ++ (hs ++ [13, 10, 13, 10])).length by
      simp; omega, List.drop_left]
  have hfind3 : findSubslice (P ++ (([13, 10, 45, 45] ++ bd) ++ rest))
      ([13, 10, 45, 45] ++ bd) = some P.length := by
    apply findSubslice_eq_some (by simp)
    · rw [List.drop_left]
      exact List.prefix_append _ _
    · intro m hm hp
      apply hP m hm
      apply prefix_drop_bounded (Y := rest)
      · simp
        omega
      · rw [List.append_assoc]
        exact hp
  have hbound : findBoundaryAfterPayload
      (([45, 45] ++ bd) ++ ([13, 10] ++
        (hs ++ ([13, 10, 13, 10] ++ (P ++ (([13, 10, 45, 45] ++ bd) ++ rest))))))
      (2 + bd.length + 2 + hs.length + 4) (([45, 45] ++ bd).drop 2)
      = some (2 + bd.length + 2 + hs.length + 4 + P.length) := by
    unfold findBoundaryAfterPayload
    rw [hdrop2]
    have hb2 : List.drop 2 ([45, 45] ++ bd) = bd := by simp
    rw [hb2, hfind3]
  rw [hbound]
  dsimp only
  rw [hdrop2, show 2 + bd.length + 2 + hs.length + 4 + P.length -
    (2 + bd.length + 2 + hs.length + 4) = P.length by omega, List.take_left]

theorem extract_lf_case (bd hs P rest : List Nat)
    (hbd : bd ≠ []) (h10 : (10 : Nat) ∉ bd)
    (h13bd : (13 : Nat) ∉ bd) (h13hs : (13 : Nat) ∉ hs)
    (h13P : (13 : Nat) ∉ P) (h13rest : (13 : Nat) ∉ rest)
    (hhs : ∀ j, j < hs.length → ¬ [10, 10] <+: (hs ++ [10, 10]).drop j)
    (hP : ∀ j, j < P.length →
      ¬ ([10, 45, 45] ++ bd) <+: (P ++ ([10, 45, 45] ++ bd)).drop j) :
    extractDicomFromMultipart
      ([45, 45] ++ bd ++ [10] ++ hs ++ [10, 10] ++ P ++
        [10, 45, 45] ++ bd ++ rest) = some P := by
  have hbdpos : 0 < bd.length := List.length_pos.mpr hbd
  have e1 : [45, 45] ++ bd ++ [10] ++ hs ++ [10, 10] ++ P ++
      [10, 45, 45] ++ bd ++ rest
      = ([45, 45] ++ bd) ++ ([10] ++
          (hs ++ ([10, 10] ++ (P ++ (([10, 45, 45] ++ bd) ++ rest))))) := by
    simp [List.append_assoc]
  rw [e1]
  have h10A : (10 : Nat) ∉ [45, 45] ++ bd := by
    intro h
    rcases List.mem_append.mp h with h | h
    · simp at h
    · exact h10 h
  have hALen : ([45, 45] ++ bd).length = 2 + bd.length := by simp; omega
  have h13body : (13 : Nat) ∉ ([45, 45] ++ bd) ++ ([10] ++
      (hs ++ ([10, 10] ++ (P ++ (([10, 45, 45] ++ bd) ++ rest))))) := by
    intro h
    simp [h13bd, h13hs, h13P, h13rest] at h
  have hnone1 : findSubslice (([45, 45] ++ bd) ++ ([10] ++
      (hs ++ ([10, 10] ++ (P ++ (([10, 45, 45] ++ bd) ++ rest)))))) [13, 10]
      = none := by
    apply findSubslice_eq_none
    intro m hp
    exact h13body (mem_of_prefix_drop (by decide) hp)
  have hfind1 : findSubslice (([45, 45] ++ bd) ++ ([10] ++
      (hs ++ ([10, 10] ++ (P ++ (([10, 45, 45] ++ bd) ++ rest)))))) [10]
      = some (2 + bd.length) := by
    apply findSubslice_eq_some (by decide)
    · rw [show 2 + bd.length = ([45, 45] ++ bd).length from hALen.symm,
        List.drop_left]
      exact List.prefix_append _ _
    · intro m hm
      exact not_prefix_cons_of_notMem h10A (by omega)
  have hline : findLineEnd (([45, 45] ++ bd) ++ ([10] ++
      (hs ++ ([10, 10] ++ (P ++ (([10, 45, 45] ++ bd) ++ rest))))))
      = some (2 + bd.length, 1) := by
    unfold findLineEnd
    rw [hnone1, hfind1]
    rfl
  unfold extractDicomFromMultipart
  rw [hline]
  dsimp only
  have htake : List.take (2 + bd.length) (([45, 45] ++ bd) ++ ([10] ++
      (hs ++ ([10, 10] ++ (P ++ (([10, 45, 45] ++ bd) ++ rest))))))
      = [45, 45] ++ bd := by
    rw [show 2 + bd.length = ([45, 45] ++ bd).length from hALen.symm,
      List.take_left]
  rw [htake]
  rw [if_pos ⟨List.isPrefixOf_iff_prefix.mpr (List.prefix_append _ _),
    by rw [hALen]; omega⟩]
  have hdrop1 : List.drop (2 + bd.length + 1) (([45, 45] ++ bd) ++ ([10] ++
      (hs ++ ([10, 10] ++ (P ++ (([10, 45, 45] ++ bd) ++ rest))))))
      = hs ++ ([10, 10] ++ (P ++ (([10, 45, 45] ++ bd) ++ rest))) := by
    have e2 : ([45, 45] ++ bd) ++ ([10] ++
        (hs ++ ([10, 10] ++ (P ++ (([10, 45, 45] ++ bd) ++ rest)))))
        = (([45, 45] ++ bd) ++ [10]) ++
          (hs ++ ([10, 10] ++ (P ++ (([10, 45, 45] ++ bd) ++ rest)))) := by
      simp [List.append_assoc]
    rw [e2, show 2 + bd.length + 1 = (([45, 45] ++ bd) ++ [10]).length by
      simp; omega, List.drop_left]
  rw [hdrop1]
  have h13T1 : (13 : Nat) ∉ hs ++ ([10, 10] ++ (P ++ (([10, 45, 45] ++ bd) ++ rest))) := by
    intro h
    simp [h13bd, h13hs, h13P, h13rest] at h
  have hnone2 : findSubslice
      (hs ++ ([10, 10] ++ (P ++ (([10, 45, 45] ++ bd) ++ rest))))
      [13, 10, 13, 10] = none := by
    apply findSubslice_eq_none
    intro m hp
    exact h13T1 (mem_of_prefix_drop (by decide) hp)
  have hfind2 : findSubslice
      (hs ++ ([10, 10] ++ (P ++ (([10, 45, 45] ++ bd) ++ rest))))
      [10, 10] = some hs.length := by
    apply findSubslice_eq_some (by decide)
    · rw [List.drop_left]
      exact List.prefix_append _ _
    · intro m hm hp
      apply hhs m hm
      apply prefix_drop_bounded (Y := P ++ (([10, 45, 45] ++ bd) ++ rest))
      · simp
        omega
      · rw [List.append_assoc]
        exact hp
  have hheaders : findHeadersEnd
      (hs ++ ([10, 10] ++ (P ++ (([10, 45, 45] ++ bd) ++ rest))))
      = some (hs.length, 2) := by
    unfold findHeadersEnd
    rw [hnone2, hfind2]
    rfl
  rw [hheaders]
  dsimp only
  have hdrop2 : List.drop (2 + bd.length + 1 + hs.length + 2)
      (([45, 45] ++ bd) ++ ([10] ++
        (hs ++ ([10, 10] ++ (P ++ (([10, 45, 45] ++ bd) ++ rest))))))
      = P ++ (([10, 45, 45] ++ bd) ++ rest) := by
    have e3 : ([45, 45] ++ bd) ++ ([10] ++
        (hs ++ ([10, 10] ++ (P ++ (([10, 45, 45] ++ bd) ++ rest)))))
        = ((([45, 45] ++ bd) ++ [10]) ++ (hs ++ [10, 10])) ++
          (P ++ (([10, 45, 45] ++ bd) ++ rest)) := by
      simp [List.append_assoc]
    rw [e3, show 2 + bd.length + 1 + hs.length + 2
        = ((([45, 45] ++ bd) ++ [10]) ++ (hs ++ [10, 10])).length by
      simp; omega, List.drop_left]
  have h13T2 : (13 : Nat) ∉ P ++ (([10, 45, 45] ++ bd) ++ rest) := by
    intro h
    simp [h13bd, h13P, h13rest] at h
  have hnone3 : findSubslice (P ++ (([10, 45, 45] ++ bd) ++ rest))
      ([13, 10, 45, 45] ++ bd) = none := by
    apply findSubslice_eq_none
    intro m hp
    exact h13T2 (mem_of_prefix_drop (by simp) hp)
  have hfind3 : findSubslice (P ++ (([10, 45, 45] ++ bd) ++ rest))
      ([10, 45, 45] ++ bd) = some P.length := by
    apply findSubslice_eq_some (by simp)
    · rw [List.drop_left]
      exact List.prefix_append _ _
    · intro m hm hp
      apply hP m hm
      apply prefix_drop_bounded (Y := rest)
      · simp
        omega
      · rw [List.append_assoc]
        exact hp
  have hbound : findBoundaryAfterPayload
      (([45, 45] ++ bd) ++ ([10] ++
        (hs ++ ([10, 10] ++ (P ++ (([10, 45, 45] ++ bd) ++ rest))))))
      (2 + bd.length + 1 + hs.length + 2) (([45, 45] ++ bd).drop 2)
      = some (2 + bd.length + 1 + hs.length + 2 + P.length) := by
    unfold findBoundaryAfterPayload
    rw [hdrop2]
    have hb2 : List.drop 2 ([45, 45] ++ bd) = bd := by simp
    rw [hb2, hnone3, hfind3]
    rfl
  rw [hbound]
  dsimp only
  rw [hdrop2, show 2 + bd.length + 1 + hs.length + 2 + P.length -
    (2 + bd.length + 1 + hs.length + 2) = P.length by omega, List.take_left]

theorem extract_none_of_not_dashes (body : List Nat)
    (h : body.take 2 ≠ [45, 45]) :
    extractDicomFromMultipart body = none := by
  unfold extractDicomFromMultipart
  rcases hline : findLineEnd body with _ | ⟨lineEnd, sepLen⟩
  · rfl
  · dsimp only
    rw [if_neg]
    rintro ⟨hpre, hlen⟩
    have hp := List.isPrefixOf_iff_prefix.mp hpre
    rw [List.prefix_iff_eq_take] at hp
    have hlen2 : 2 < lineEnd := by
      rw [List.length_take] at hlen
      omega
    have ht : List.take 2 (List.take lineEnd body) = List.take 2 body := by
      rw [List.take_take]
      congr 1
      omega
    exact h (by rw [← ht]; exact hp.symm)

theorem unwrap_of_extract_none (body : List Nat)
    (h : extractDicomFromMultipart body = none) :
    unwrapDicomMultipart body = body := by
  unfold unwrapDicomMultipart
  rw [h]

/-- C7: a CRLF- or LF-delimited multipart envelope — first line `--` plus a
boundary token, part headers ended by the first blank line, payload bounded
by the next boundary-prefixed line — is extracted to exactly the embedded
payload bytes; a body that does not look like a multipart envelope (here:
one that does not begin with `--`) yields no extraction, and whenever no
extraction happens the unwrap step passes the body through byte-for-byte. -/
theorem multipart_extraction_spec :
    (∀ bd hs P rest : List Nat, bd ≠ [] → (13 : Nat) ∉ bd →
      (∀ j, j < hs.length →
        ¬ [13, 10, 13, 10] <+: (hs ++ [13, 10, 13, 10]).drop j) →
      (∀ j, j < P.length →
        ¬ ([13, 10, 45, 45] ++ bd) <+: (P ++ ([13, 10, 45, 45] ++ bd)).drop j) →
      extractDicomFromMultipart ([45, 45] ++ bd ++ [13, 10] ++ hs ++
        [13, 10, 13, 10] ++ P ++ [13, 10, 45, 45] ++ bd ++ rest) = some P) ∧
    (∀ bd hs P rest : List Nat, bd ≠ [] → (10 : Nat) ∉ bd →
      (13 : Nat) ∉ bd → (13 : Nat) ∉ hs → (13 : Nat) ∉ P → (13 : Nat) ∉ rest →
      (∀ j, j < hs.length → ¬ [10, 10] <+: (hs ++ [10, 10]).drop j) →
      (∀ j, j < P.length →
        ¬ ([10, 45, 45] ++ bd) <+: (P ++ ([10, 45, 45] ++ bd)).drop j) →
      extractDicomFromMultipart ([45, 45] ++ bd ++ [10] ++ hs ++
        [10, 10] ++ P ++ [10, 45, 45] ++ bd ++ rest) = some P) ∧
    (∀ body : List Nat, body.take 2 ≠ [45, 45] →
      extractDicomFromMultipart body = none) ∧
    (∀ body : List Nat, extractDicomFromMultipart body = none →
      unwrapDicomMultipart body = body) :=
  ⟨extract_crlf_case, extract_lf_case, extract_none_of_not_dashes,
    unwrap_of_extract_none⟩

theorem multipart_extraction_spec_witness :
    extractDicomFromMultipart ([45, 45] ++ [98] ++ [13, 10] ++ [72] ++
      [13, 10, 13, 10] ++ [1, 2, 3] ++ [13, 10, 45, 45] ++ [98] ++
      [45, 45, 13, 10]) = some [1, 2, 3] ∧
    extractDicomFromMultipart ([45, 45] ++ [98] ++ [10] ++ [72] ++
      [10, 10] ++ [1, 2, 3] ++ [10, 45, 45] ++ [98] ++ [45, 45, 10]) =
      some [1, 2, 3] ∧
    extractDicomFromMultipart [1, 2, 3] = none ∧
    unwrapDicomMultipart [1, 2, 3] = [1, 2, 3] :=
  ⟨multipart_extraction_spec.1 [98] [72] [1, 2, 3] [45, 45, 13, 10]
      (by decide) (by decide) (by decide) (by decide),
    multipart_extraction_spec.2.1 [98] [72] [1, 2, 3] [45, 45, 10]
      (by decide) (by decide) (by decide) (by decide) (by decide) (by decide)
      (by decide) (by decide),
    multipart_extraction_spec.2.2.1 [1, 2, 3] (by decide),
    multipart_extraction_spec.2.2.2 [1, 2, 3]
      (multipart_extraction_spec.2.2.1 [1, 2, 3] (by decide))⟩

/-! ### Inversions and singleton searches for `findSubslice` -/

theorem findSubGo_succ {α : Type} [DecidableEq α] (needle : List α) :
    ∀ (l : List α) (i : Nat),
      findSubGo needle l (i + 1) = (findSubGo needle l i).map (· + 1) := by
  intro l
  induction l with
  | nil => intro i; rfl
  | cons a t ih =>
    intro i
    simp only [findSubGo]
    split
    · rfl
    · exact ih (i + 1)

theorem singleton_prefix_iff {α : Type} (c : α) (l : List α) :
    [c] <+: l ↔ l.head? = some c := by
  constructor
  · rintro ⟨t, ht⟩
    rw [← ht]
    rfl
  · intro h
    rcases List.head?_eq_some_iff.mp h with ⟨ys, rfl⟩
    exact ⟨ys, rfl⟩

theorem findSubGo_none_inv {α : Type} [DecidableEq α] {needle : List α}
    (hne : needle ≠ []) :
    ∀ (l : List α) (i : Nat), findSubGo needle l i = none →
      ∀ m, ¬ needle <+: l.drop m := by
  intro l
  induction l with
  | nil =>
    intro i _ m hp
    rw [List.drop_nil, List.prefix_nil] at hp
    exact hne hp
  | cons a t ih =>
    intro i h m hp
    rw [findSubGo] at h
    split at h
    · exact absurd h (by simp)
    · rename_i hnp
      match m with
      | 0 =>
        rw [List.drop_zero] at hp
        exact hnp (List.isPrefixOf_iff_prefix.mpr hp)
      | m' + 1 =>
        rw [List.drop_succ_cons] at hp
        exact ih (i + 1) h m' hp

theorem findSubslice_none_inv {α : Type} [DecidableEq α]
    {haystack needle : List α} (hne : needle ≠ [])
    (h : findSubslice haystack needle = none) :
    ∀ m, ¬ needle <+: haystack.drop m := by
  unfold findSubslice at h
  split at h
  · rename_i hc
    rcases hc with hc | hc
    · exact absurd hc hne
    · intro m hp
      have := hp.length_le
      rw [List.length_drop] at this
      omega
  · exact findSubGo_none_inv hne haystack 0 h

theorem findSubGo_some_inv {α : Type} [DecidableEq α] {needle : List α} :
    ∀ (l : List α) (i j : Nat), findSubGo needle l i = some j →
      ∃ k, j = i + k ∧ needle <+: l.drop k ∧
        ∀ m, m < k → ¬ needle <+: l.drop m := by
  intro l
  induction l with
  | nil => intro i j h; exact absurd h (by simp [findSubGo])
  | cons a t ih =>
    intro i j h
    rw [findSubGo] at h
    split at h
    · rename_i hp
      rw [Option.some.injEq] at h
      exact ⟨0, by omega,
        by rw [List.drop_zero]; exact List.isPrefixOf_iff_prefix.mp hp,
        by omega⟩
    · rename_i hnp
      rcases ih (i + 1) j h with ⟨k, hk1, hk2, hk3⟩
      refine ⟨k + 1, by omega, by rwa [List.drop_succ_cons], ?_⟩
      intro m hm
      match m with
      | 0 =>
        rw [List.drop_zero]
        exact fun hp => hnp (List.isPrefixOf_iff_prefix.mpr hp)
      | m' + 1 =>
        rw [List.drop_succ_cons]
        exact hk3 m' (by omega)

theorem findSubslice_some_inv {α : Type} [DecidableEq α]
    {haystack needle : List α} {k : Nat}
    (h : findSubslice haystack needle = some k) :
    needle ≠ [] ∧ needle <+: haystack.drop k ∧
      ∀ m, m < k → ¬ needle <+: haystack.drop m := by
  unfold findSubslice at h
  split at h
  · exact absurd h (by simp)
  · rename_i hc
    push_neg at hc
    rcases findSubGo_some_inv haystack 0 k h with ⟨k', hk1, hk2, hk3⟩
    have hkk : k' = k := by omega
    subst hkk
    exact ⟨hc.1, hk2, hk3⟩

theorem findSubslice_singleton_cons {α : Type} [DecidableEq α] (a c : α)
    (l : List α) :
    findSubslice (a :: l) [c] =
      if a = c then some 0 else (findSubslice l [c]).map (· + 1) := by
  by_cases hac : a = c
  · subst hac
    rw [if_pos rfl]
    unfold findSubslice
    rw [if_neg (by simp)]
    rw [findSubGo]
    have hcond : ([a].isPrefixOf (a :: l)) = true := by
      rw [List.isPrefixOf_iff_prefix]
      exact ⟨l, rfl⟩
    rw [if_pos hcond]
  · rw [if_neg hac]
    unfold findSubslice
    rw [if_neg (by simp)]
    rw [findSubGo, if_neg (fun hp => by
      rcases List.isPrefixOf_iff_prefix.mp hp with ⟨t, ht⟩
      rw [List.cons_append, List.nil_append] at ht
      exact hac (List.cons.injEq .. ▸ ht).1.symm)]
    show findSubGo [c] l (0 + 1) = _
    rw [findSubGo_succ]
    congr 1
    split
    · rename_i hc2
      have hl : l = [] := by
        rcases hc2 with hc2 | hc2
        · exact absurd hc2 (by simp)
        · cases l
          · rfl
          · simp at hc2
      subst hl
      rfl
    · rfl

/-! ### Trim and strip lemmas -/

theorem dropWhile_eq_self_of_forall {α : Type} {p : α → Bool} {l : List α}
    (h : ∀ c ∈ l, p c = false) : l.dropWhile p = l := by
  match l with
  | [] => rfl
  | a :: t =>
    rw [List.dropWhile_cons, h a (List.mem_cons_self a t)]
    simp

theorem trimEnd_eq_self_of_forall {p : Char → Bool} {l : List Char}
    (h : ∀ c ∈ l, p c = false) : trimEndMatches p l = l := by
  unfold trimEndMatches
  rw [dropWhile_eq_self_of_forall (fun c hc => h c (List.mem_reverse.mp hc)),
    List.reverse_reverse]

theorem trimChars_eq_self {l : List Char}
    (h : ∀ c ∈ l, isRustWhitespace c = false) : trimChars l = l := by
  unfold trimChars
  rw [dropWhile_eq_self_of_forall h, trimEnd_eq_self_of_forall h]

theorem mem_trimEnd {p : Char → Bool} {l : List Char} {c : Char}
    (hc : c ∈ trimEndMatches p l) : c ∈ l := by
  unfold trimEndMatches at hc
  rw [List.mem_reverse] at hc
  exact List.mem_reverse.mp ((List.dropWhile_sublist p).subset hc)

theorem mem_trimChars {l : List Char} {c : Char} (hc : c ∈ trimChars l) :
    c ∈ l := by
  unfold trimChars at hc
  exact (List.dropWhile_sublist isRustWhitespace).subset (mem_trimEnd hc)

theorem head?_dropWhile_false {p : Char → Bool} :
    ∀ {l : List Char} {a : Char}, (l.dropWhile p).head? = some a →
      p a = false := by
  intro l
  induction l with
  | nil => intro a h; simp at h
  | cons x t ih =>
    intro a h
    rw [List.dropWhile_cons] at h
    split at h
    · exact ih h
    · rename_i hx
      rw [List.head?_cons, Option.some.injEq] at h
      subst h
      simpa using hx

theorem trimEnd_reverse_head {p : Char → Bool} {l : List Char} {a : Char}
    (h : (trimEndMatches p l).reverse.head? = some a) : p a = false := by
  unfold trimEndMatches at h
  rw [List.reverse_reverse] at h
  exact head?_dropWhile_false h

theorem trimMatches_eq_nil {p : Char → Bool} {l : List Char}
    (h : trimMatches p l = []) : ∀ c ∈ l, p c = true := by
  unfold trimMatches trimEndMatches at h
  rw [List.reverse_eq_nil_iff, List.dropWhile_eq_nil_iff] at h
  have hall : ∀ x ∈ l.dropWhile p, p x = true :=
    fun x hx => h x (List.mem_reverse.mpr hx)
  have hnil : l.dropWhile p = [] := by
    rcases hd : l.dropWhile p with _ | ⟨a, t⟩
    · rfl
    · have h1 : p a = false := head?_dropWhile_false (by rw [hd]; rfl)
      have h2 := hall a (by rw [hd]; exact List.mem_cons_self a t)
      rw [h1] at h2
      exact absurd h2 (by simp)
  rw [List.dropWhile_eq_nil_iff] at hnil
  exact hnil

theorem stripQF_cons (a : Char) (l : List Char) :
    stripQueryAndFragment (a :: l) =
      if a = '?' ∨ a = '#' then [] else a :: stripQueryAndFragment l := by
  unfold stripQueryAndFragment
  rw [findSubslice_singleton_cons, findSubslice_singleton_cons]
  by_cases hq : a = '?'
  · rw [if_pos hq, if_neg (by rw [hq]; decide), if_pos (Or.inl hq)]
    simp
  · by_cases hh : a = '#'
    · rw [if_neg hq, if_pos hh, if_pos (Or.inr hh)]
      simp
    · rw [if_neg hq, if_neg hh, if_neg (by tauto)]
      dsimp only
      have hq1 : ((findSubslice l ['?']).map (· + 1)).getD (a :: l).length
          = (findSubslice l ['?']).getD l.length + 1 := by
        rcases findSubslice l ['?'] with _ | q <;> simp
      have hh1 : ((findSubslice l ['#']).map (· + 1)).getD (a :: l).length
          = (findSubslice l ['#']).getD l.length + 1 := by
        rcases findSubslice l ['#'] with _ | q <;> simp
      rw [hq1, hh1,
        show ((findSubslice l ['?']).getD l.length + 1) ⊓
            ((findSubslice l ['#']).getD l.length + 1)
          = ((findSubslice l ['?']).getD l.length ⊓
            (findSubslice l ['#']).getD l.length) + 1 from
          Nat.succ_min_succ _ _,
        List.take_succ_cons]

theorem stripQF_chars {l : List Char} {c : Char}
    (hc : c ∈ stripQueryAndFragment l) : c ∈ l ∧ c ≠ '?' ∧ c ≠ '#' := by
  induction l with
  | nil => simp [stripQueryAndFragment] at hc
  | cons a t ih =>
    rw [stripQF_cons] at hc
    split at hc
    · simp at hc
    · rename_i hna
      push_neg at hna
      rcases List.mem_cons.mp hc with rfl | hc2
      · exact ⟨List.mem_cons_self _ _, hna.1, hna.2⟩
      · rcases ih hc2 with ⟨h1, h2, h3⟩
        exact ⟨List.mem_cons_of_mem _ h1, h2, h3⟩

theorem stripQF_eq_self {l : List Char} (h : ∀ c ∈ l, c ≠ '?' ∧ c ≠ '#') :
    stripQueryAndFragment l = l := by
  induction l with
  | nil => rfl
  | cons a t ih =>
    rw [stripQF_cons,
      if_neg (by have := h a (List.mem_cons_self a t); tauto),
      ih (fun c hc => h c (List.mem_cons_of_mem a hc))]

/-! ### Base-URL normalization -/

theorem head?_take_pos {α : Type} {l : List α} {k : Nat} (hk : 0 < k) :
    (l.take k).head? = l.head? := by
  cases l with
  | nil => simp
  | cons a t =>
    match k, hk with
    | k + 1, _ => rfl

theorem trimEnd_no_trailing {p : Char → Bool} {l : List Char}
    (h : ∀ a, l.reverse.head? = some a → p a = false) :
    trimEndMatches p l = l := by
  unfold trimEndMatches
  rcases hr : l.reverse with _ | ⟨a, t⟩
  · rw [List.reverse_eq_nil_iff] at hr
    subst hr
    rfl
  · rw [List.dropWhile_cons, h a (by rw [hr]; rfl)]
    simp only [Bool.false_eq_true, if_false]
    rw [← hr, List.reverse_reverse]

theorem mem_singleton_find_none {α : Type} [DecidableEq α] {l : List α} {c : α}
    (h : findSubslice l [c] = none) : c ∉ l := by
  intro hmem
  rcases List.mem_iff_getElem?.mp hmem with ⟨n, hn⟩
  refine findSubslice_none_inv (by simp) h n ?_
  rw [singleton_prefix_iff, List.head?_drop]
  exact hn

theorem dicomWebSuffix_slash {k : Nat} (h : dicomWebSuffix[k]? = some '/') :
    k = 0 := by
  match k with
  | 0 => rfl
  | k + 1 =>
    exfalso
    unfold dicomWebSuffix at h
    rw [List.getElem?_cons_succ] at h
    rcases List.getElem?_eq_some_iff.mp h with ⟨hlt, hEq⟩
    have hmem := List.getElem_mem hlt
    rw [hEq] at hmem
    simp at hmem

theorem rootOnly_true_cases {t : List Char}
    (hlast : t.reverse.head? ≠ some '/')
    (h : hasRootOnlyPath t = true) :
    (∃ i, findSubslice t protocolSep = some i ∧
      findSubslice (t.drop (i + 3)) ['/'] = none) ∨
    (findSubslice t protocolSep = none ∧ '/' ∉ t) := by
  unfold hasRootOnlyPath splitOnceList at h
  rcases hsp : findSubslice t protocolSep with _ | i
  · rw [hsp] at h
    dsimp only at h
    right
    refine ⟨rfl, ?_⟩
    intro hmem
    have hel : t.contains '/' = true := List.elem_iff.mpr hmem
    rw [hel] at h
    exact absurd h (by simp)
  · rw [hsp] at h
    dsimp only at h
    left
    refine ⟨i, rfl, ?_⟩
    rcases hpi : findSubslice (t.drop (i + protocolSep.length)) ['/'] with _ | pi
    · exact hpi
    · exfalso
      rw [hpi] at h
      dsimp only at h
      rw [List.isEmpty_iff] at h
      have hall := trimMatches_eq_nil h
      rcases (findSubslice_some_inv hpi).2.1 with ⟨tl, htl⟩
      have hpne : (t.drop (i + protocolSep.length)).drop pi ≠ [] := by
        rw [← htl]
        simp
      have hpd : (t.drop (i + protocolSep.length)).drop pi
          = t.drop (i + protocolSep.length + pi) := by
        rw [List.drop_drop]
        try congr 1
        all_goals omega
      -- the nonempty all-slash suffix forces t to end with '/'
      have hrevtake : ((t.drop (i + protocolSep.length + pi)).reverse).head?
          = t.reverse.head? := by
        rw [List.reverse_drop]
        apply head?_take_pos
        have hne2 : t.drop (i + protocolSep.length + pi) ≠ [] := by
          rw [← hpd]
          exact hpne
        have hlen : (t.drop (i + protocolSep.length + pi)).length ≠ 0 :=
          fun hz => hne2 (List.length_eq_zero.mp hz)
        rw [List.length_drop] at hlen
        omega
      have hrne : (t.drop (i + protocolSep.length + pi)).reverse ≠ [] := by
        intro hz
        rw [List.reverse_eq_nil_iff] at hz
        exact hpne (by rw [hpd]; exact hz)
      rcases List.exists_cons_of_ne_nil hrne with ⟨c, cs, hc⟩
      have hcmem : c ∈ (t.drop (i + protocolSep.length)).drop pi := by
        rw [hpd, ← List.mem_reverse, hc]
        exact List.mem_cons_self c cs
      have hslash := hall c hcmem
      unfold isSlash at hslash
      have hceq : c = '/' := of_decide_eq_true hslash
      apply hlast
      rw [← hrevtake, hc, hceq]
      rfl

theorem prefix_drop_append_left {α : Type} {needle X Y : List α} {j : Nat}
    (hj : j ≤ X.length) (hp : needle <+: X.drop j) :
    needle <+: (X ++ Y).drop j := by
  rw [List.drop_append_of_le_length hj]
  exact hp.trans (List.prefix_append _ _)

theorem rootOnly_append_suffix_false {t : List Char}
    (hlast : t.reverse.head? ≠ some '/')
    (hroot : hasRootOnlyPath t = true) :
    hasRootOnlyPath (t ++ dicomWebSuffix) = false := by
  have hps : protocolSep.length = 3 := rfl
  rcases rootOnly_true_cases hlast hroot with ⟨i, hi, hrest⟩ | ⟨hnone, hnoslash⟩
  · rcases findSubslice_some_inv hi with ⟨hne, hocc, hmin⟩
    have hi3 : i + 3 ≤ t.length := by
      have hl := hocc.length_le
      rw [List.length_drop, hps] at hl
      omega
    have hext : findSubslice (t ++ dicomWebSuffix) protocolSep = some i := by
      apply findSubslice_eq_some hne
      · exact prefix_drop_append_left (by omega) hocc
      · intro m hm hp
        apply hmin m hm
        apply prefix_drop_bounded ?_ hp
        rw [hps]
        omega
    have hnoslash2 : '/' ∉ t.drop (i + 3) := mem_singleton_find_none hrest
    have hdropapp : (t ++ dicomWebSuffix).drop (i + 3)
        = t.drop (i + 3) ++ dicomWebSuffix :=
      List.drop_append_of_le_length (by omega)
    have hfslash : findSubslice (t.drop (i + 3) ++ dicomWebSuffix) ['/']
        = some (t.drop (i + 3)).length := by
      apply findSubslice_eq_some (by simp)
      · rw [List.drop_left]
        exact ⟨['d', 'i', 'c', 'o', 'm', '-', 'w', 'e', 'b'], rfl⟩
      · intro m hm
        exact not_prefix_cons_of_notMem hnoslash2 hm
    unfold hasRootOnlyPath splitOnceList
    rw [hext]
    dsimp only
    rw [hps, hdropapp, hfslash]
    dsimp only
    rw [List.drop_left]
    decide
  · have hb2a : findSubslice (t ++ dicomWebSuffix) protocolSep = none := by
      apply findSubslice_eq_none
      intro m hp
      rcases hp with ⟨tail, htail⟩
      have hm1 : (t ++ dicomWebSuffix)[m + 1]? = some '/' := by
        rw [← List.getElem?_drop, ← htail]
        simp [protocolSep]
      have hm2 : (t ++ dicomWebSuffix)[m + 2]? = some '/' := by
        rw [← List.getElem?_drop, ← htail]
        simp [protocolSep]
      have hpos : ∀ j, (t ++ dicomWebSuffix)[j]? = some '/' → j = t.length := by
        intro j hj
        rw [List.getElem?_append] at hj
        split at hj
        · rcases List.getElem?_eq_some_iff.mp hj with ⟨h1, h2⟩
          exact absurd (h2 ▸ List.getElem_mem h1) hnoslash
        · rename_i hge
          have := dicomWebSuffix_slash hj
          omega
      have e1 := hpos (m + 1) hm1
      have e2 := hpos (m + 2) hm2
      omega
    unfold hasRootOnlyPath splitOnceList
    rw [hb2a]
    dsimp only
    have hcont : (t ++ dicomWebSuffix).contains '/' = true := by
      apply List.elem_iff.mpr
      apply List.mem_append.mpr
      right
      decide
    rw [hcont]
    rfl

theorem mem_normalizeTrimmed {u : List Char} {c : Char}
    (hc : c ∈ normalizeTrimmed u) : c ∈ u ∧ c ≠ '?' ∧ c ≠ '#' := by
  unfold normalizeTrimmed at hc
  have h1 := mem_trimChars (mem_trimEnd hc)
  rcases stripQF_chars h1 with ⟨h2, h3, h4⟩
  exact ⟨mem_trimChars h2, h3, h4⟩

theorem normalizeTrimmed_last {u : List Char} :
    (normalizeTrimmed u).reverse.head? ≠ some '/' := by
  intro h
  unfold normalizeTrimmed at h
  have := trimEnd_reverse_head h
  simp [isSlash] at this

theorem normalizeTrimmed_nows {u : List Char}
    (hws : ∀ c ∈ u, isRustWhitespace c = false) :
    ∀ c ∈ normalizeTrimmed u, isRustWhitespace c = false :=
  fun c hc => hws c (mem_normalizeTrimmed hc).1

theorem normalizeTrimmed_of_clean {v : List Char}
    (hws : ∀ c ∈ v, isRustWhitespace c = false)
    (hqf : ∀ c ∈ v, c ≠ '?' ∧ c ≠ '#')
    (hlast : v.reverse.head? ≠ some '/') :
    normalizeTrimmed v = v := by
  unfold normalizeTrimmed
  rw [trimChars_eq_self hws, stripQF_eq_self hqf, trimChars_eq_self hws]
  apply trimEnd_no_trailing
  intro a ha
  by_cases hav : a = '/'
  · exact absurd (hav ▸ ha) hlast
  · simp [isSlash, hav]

theorem normalize_fixpoint {u : List Char}
    (hws : ∀ c ∈ u, isRustWhitespace c = false) :
    normalizeBaseUrl (normalizeBaseUrl u) = normalizeBaseUrl u := by
  by_cases hTe : (normalizeTrimmed u).isEmpty
  · have hNu : normalizeBaseUrl u = [] := by
      unfold normalizeBaseUrl
      rw [if_pos hTe]
    rw [hNu]
    decide
  · by_cases hro : hasRootOnlyPath (normalizeTrimmed u) = true
    · have hNu : normalizeBaseUrl u = normalizeTrimmed u ++ dicomWebSuffix := by
        unfold normalizeBaseUrl
        rw [if_neg hTe, if_pos hro]
      rw [hNu]
      have hout_ws : ∀ c ∈ normalizeTrimmed u ++ dicomWebSuffix,
          isRustWhitespace c = false := by
        intro c hc
        rcases List.mem_append.mp hc with hc | hc
        · exact normalizeTrimmed_nows hws c hc
        · have hsf : ∀ c ∈ dicomWebSuffix, isRustWhitespace c = false := by decide
          exact hsf c hc
      have hout_qf : ∀ c ∈ normalizeTrimmed u ++ dicomWebSuffix,
          c ≠ '?' ∧ c ≠ '#' := by
        intro c hc
        rcases List.mem_append.mp hc with hc | hc
        · exact (mem_normalizeTrimmed hc).2
        · have hsf : ∀ c ∈ dicomWebSuffix, c ≠ '?' ∧ c ≠ '#' := by decide
          exact hsf c hc
      have hout_last : (normalizeTrimmed u ++ dicomWebSuffix).reverse.head?
          = some 'b' := by
        rw [List.reverse_append]
        rfl
      unfold normalizeBaseUrl
      rw [normalizeTrimmed_of_clean hout_ws hout_qf
        (by rw [hout_last]; decide)]
      rw [if_neg (by simp [List.isEmpty_iff, dicomWebSuffix])]
      rw [if_neg (show ¬ hasRootOnlyPath (normalizeTrimmed u ++ dicomWebSuffix)
          = true by
        rw [rootOnly_append_suffix_false normalizeTrimmed_last hro]
        simp)]
    · have hNu : normalizeBaseUrl u = normalizeTrimmed u := by
        unfold normalizeBaseUrl
        rw [if_neg hTe, if_neg hro]
      rw [hNu]
      unfold normalizeBaseUrl
      rw [normalizeTrimmed_of_clean (normalizeTrimmed_nows hws)
        (fun c hc => (mem_normalizeTrimmed hc).2) normalizeTrimmed_last]
      rw [if_neg hTe, if_neg hro]

/-- C9 counterexample: normalization is not idempotent.  For a URL with a
whitespace character before its trailing slash, the first pass strips the
slash and leaves trailing whitespace, which only the second pass trims, so
normalizing an already-normalized URL changes it. -/
theorem normalize_idempotent_counterexample :
    normalizeBaseUrl (normalizeBaseUrl
      ['h', 't', 't', 'p', ':', '/', '/', 'h', '/', 'p', ' ', '/']) ≠
    normalizeBaseUrl
      ['h', 't', 't', 'p', ':', '/', '/', 'h', '/', 'p', ' ', '/'] := by
  decide

/-- C9 (amended): base URL normalization strips any query string and
fragment and trailing slashes, appends `/dicom-web` exactly when the
remaining URL has no path beyond the host (`"http://host:8042"` gains the
suffix, `"http://host:8042/dicom-web/"` only loses the trailing slash), and
is idempotent on every URL containing no whitespace character; on inputs
with whitespace before a trailing slash a second normalization can trim
further. -/
theorem normalize_base_url_spec :
    normalizeBaseUrl ("http://host:8042".toList)
      = "http://host:8042/dicom-web".toList ∧
    normalizeBaseUrl ("http://host:8042/dicom-web/".toList)
      = "http://host:8042/dicom-web".toList ∧
    (∀ u : List Char, '?' ∉ normalizeBaseUrl u ∧ '#' ∉ normalizeBaseUrl u) ∧
    (∀ u : List Char, (∀ c ∈ u, isRustWhitespace c = false) →
      normalizeBaseUrl (normalizeBaseUrl u) = normalizeBaseUrl u) := by
  refine ⟨by decide, by decide, ?_, fun u hws => normalize_fixpoint hws⟩
  intro u
  constructor
  · intro hc
    unfold normalizeBaseUrl at hc
    split at hc
    · simp at hc
    · split at hc
      · rcases List.mem_append.mp hc with hc | hc
        · exact (mem_normalizeTrimmed hc).2.1 rfl
        · simp [dicomWebSuffix] at hc
      · exact (mem_normalizeTrimmed hc).2.1 rfl
  · intro hc
    unfold normalizeBaseUrl at hc
    split at hc
    · simp at hc
    · split at hc
      · rcases List.mem_append.mp hc with hc | hc
        · exact (mem_normalizeTrimmed hc).2.2 rfl
        · simp [dicomWebSuffix] at hc
      · exact (mem_normalizeTrimmed hc).2.2 rfl

theorem normalize_base_url_spec_witness :
    normalizeBaseUrl (normalizeBaseUrl ['a', '/', 'b'])
      = normalizeBaseUrl ['a', '/', 'b'] :=
  normalize_base_url_spec.2.2.2 ['a', '/', 'b'] (by decide)

/-! ### Mammography quartet selection -/

theorem mammoLe_rankLe {a b : MetadataInstance} (h : mammoLe a b) :
    rankLe (rankPair a) (rankPair b) := by
  unfold mammoLe mammoSortKey at h
  rw [Prod.Lex.le_iff] at h
  rcases h with h | ⟨he, h2⟩
  · exact Or.inl h
  · rw [Prod.Lex.le_iff] at h2
    rcases h2 with h2 | ⟨he2, _⟩
    · exact Or.inr ⟨he, le_of_lt h2⟩
    · exact Or.inr ⟨he, le_of_eq he2⟩

theorem sorted_rank_four {out : List MetadataInstance}
    (hs : List.Sorted mammoLe out)
    (hperm : (out.map classPair).Perm quartetClassList) :
    out.map classPair = quartetClassList := by
  have hrank : out.map rankPair = [(0, 0), (0, 1), (1, 0), (1, 1)] := by
    apply List.eq_of_perm_of_sorted (r := rankLe)
    · have h1 : out.map rankPair = (out.map classPair).map rankOfClass := by
        rw [List.map_map]
        rfl
      rw [h1]
      have h2 := hperm.map rankOfClass
      have h3 : quartetClassList.map rankOfClass
          = [(0, 0), (0, 1), (1, 0), (1, 1)] := by decide
      rw [h3] at h2
      exact h2
    · rw [List.Sorted, List.pairwise_map]
      exact hs.imp mammoLe_rankLe
    · decide
  have hlen : out.length = 4 := by
    have h4 := hperm.length_eq
    rw [List.length_map] at h4
    simpa [quartetClassList] using h4
  rcases out with _ | ⟨a, _ | ⟨b, _ | ⟨c, _ | ⟨d, _ | e⟩⟩⟩⟩ <;>
    simp only [List.length_cons, List.length_nil] at hlen <;> try omega
  simp only [List.map_cons, List.map_nil, List.cons.injEq, and_true] at hrank
  obtain ⟨h00, h01, h10, h11⟩ := hrank
  have hmem : ∀ x ∈ [a, b, c, d], classPair x ∈ quartetClassList := by
    intro x hx
    exact hperm.subset (List.mem_map_of_mem classPair hx)
  have pick : ∀ (x : MetadataInstance) (v : Nat × Nat),
      rankPair x = v → classPair x ∈ quartetClassList →
      ∀ q ∈ quartetClassList, rankOfClass q = v → classPair x = q := by
    intro x v hv hmemx q hq hqv
    have hx : rankOfClass (classPair x) = v := hv
    have huniq : ∀ p1 ∈ quartetClassList, ∀ p2 ∈ quartetClassList,
        rankOfClass p1 = rankOfClass p2 → p1 = p2 := by decide
    exact huniq (classPair x) hmemx q hq (by rw [hx, hqv])
  simp only [List.map_cons, List.map_nil]
  rw [pick a (0, 0) h00 (hmem a (by simp)) (some "CC", some "R")
      (by decide) (by decide),
    pick b (0, 1) h01 (hmem b (by simp)) (some "CC", some "L")
      (by decide) (by decide),
    pick c (1, 0) h10 (hmem c (by simp)) (some "MLO", some "R")
      (by decide) (by decide),
    pick d (1, 1) h11 (hmem d (by simp)) (some "MLO", some "L")
      (by decide) (by decide)]
  rfl

/-- C2: `reduce_series_instances` returns a single instance unchanged, and
on four instances whose (view, laterality) classifications are the four
distinct quartet pairs — in any input order — it succeeds and returns them
ordered exactly [R/CC, L/CC, R/MLO, L/MLO] (it sorts by the mammo key:
view rank, laterality rank, instance number with unknown maximal, UID). -/
theorem reduce_quartet_ordering :
    (∀ i : MetadataInstance, reduceSeriesInstances [i] = .ok [i]) ∧
    (∀ inst : List MetadataInstance, inst.length = 4 →
      (inst.map classPair).Perm quartetClassList →
      ∃ out, reduceSeriesInstances inst = .ok out ∧ out.Perm inst ∧
        out.map classPair = quartetClassList) := by
  constructor
  · intro i
    simp [reduceSeriesInstances]
  · intro inst hlen hperm
    have hsorted_perm := List.perm_insertionSort mammoLe inst
    have hslen : (sortInstancesForMammo inst).length = 4 := by
      unfold sortInstancesForMammo
      rw [hsorted_perm.length_eq, hlen]
    refine ⟨sortInstancesForMammo inst, ?_, hsorted_perm, ?_⟩
    · unfold reduceSeriesInstances
      rw [if_neg (by omega)]
      dsimp only
      rw [if_pos hslen]
    · apply sorted_rank_four
      · exact List.sorted_insertionSort mammoLe inst
      · exact (hsorted_perm.map classPair).trans hperm

theorem reduce_quartet_ordering_witness :
    reduceSeriesInstances [wInstCCR] = .ok [wInstCCR] ∧
    ∃ out, reduceSeriesInstances [wInstMLOL, wInstCCR, wInstMLOR, wInstCCL]
        = .ok out ∧
      out.Perm [wInstMLOL, wInstCCR, wInstMLOR, wInstCCL] ∧
      out.map classPair = quartetClassList :=
  ⟨reduce_quartet_ordering.1 wInstCCR,
    reduce_quartet_ordering.2 [wInstMLOL, wInstCCR, wInstMLOR, wInstCCL]
      (by decide) (by decide)⟩

theorem pickFold_spec (l : List MetadataInstance) :
    ∀ r lc rm lm : Option MetadataInstance,
      l.foldl pickStep (r, lc, rm, lm) =
        (r.or (l.find? (isSlot 0 0)), lc.or (l.find? (isSlot 0 1)),
         rm.or (l.find? (isSlot 1 0)), lm.or (l.find? (isSlot 1 1))) := by
  induction l with
  | nil =>
    intro r lc rm lm
    simp [List.foldl_nil]
  | cons a t ih =>
    intro r lc rm lm
    rw [List.foldl_cons]
    have hslot : ∀ v la : Nat, isSlot v la a = true ↔
        (viewRankOf a = v ∧ latRankOf a = la) := by
      intro v la
      unfold isSlot
      rw [decide_eq_true_eq]
    by_cases c1 : viewRankOf a = 0 ∧ latRankOf a = 0 ∧ r = none
    · rw [show pickStep (r, lc, rm, lm) a = (some a, lc, rm, lm) by
        unfold pickStep; dsimp only; rw [if_pos c1]]
      rw [ih]
      obtain ⟨hv, hl, hr⟩ := c1
      subst hr
      rw [List.find?_cons, show isSlot 0 0 a = true from
          (hslot 0 0).mpr ⟨hv, hl⟩,
        List.find?_cons, show isSlot 0 1 a = false by
          simp [isSlot]; omega,
        List.find?_cons, show isSlot 1 0 a = false by
          simp [isSlot]; omega,
        List.find?_cons, show isSlot 1 1 a = false by
          simp [isSlot]; omega]
      simp [Option.none_or, Option.or_some]
    · by_cases c2 : viewRankOf a = 0 ∧ latRankOf a = 1 ∧ lc = none
      · rw [show pickStep (r, lc, rm, lm) a = (r, some a, rm, lm) by
          unfold pickStep; dsimp only; rw [if_neg c1, if_pos c2]]
        rw [ih]
        obtain ⟨hv, hl, hlc⟩ := c2
        subst hlc
        rw [List.find?_cons, show isSlot 0 0 a = false by
            simp [isSlot]; omega,
          List.find?_cons, show isSlot 0 1 a = true from
            (hslot 0 1).mpr ⟨hv, hl⟩,
          List.find?_cons, show isSlot 1 0 a = false by
            simp [isSlot]; omega,
          List.find?_cons, show isSlot 1 1 a = false by
            simp [isSlot]; omega]
        simp [Option.none_or, Option.or_some]
      · by_cases c3 : viewRankOf a = 1 ∧ latRankOf a = 0 ∧ rm = none
        · rw [show pickStep (r, lc, rm, lm) a = (r, lc, some a, lm) by
            unfold pickStep; dsimp only; rw [if_neg c1, if_neg c2, if_pos c3]]
          rw [ih]
          obtain ⟨hv, hl, hrm⟩ := c3
          subst hrm
          rw [List.find?_cons, show isSlot 0 0 a = false by
              simp [isSlot]; omega,
            List.find?_cons, show isSlot 0 1 a = false by
              simp [isSlot]; omega,
            List.find?_cons, show isSlot 1 0 a = true from
              (hslot 1 0).mpr ⟨hv, hl⟩,
            List.find?_cons, show isSlot 1 1 a = false by
              simp [isSlot]; omega]
          simp [Option.none_or, Option.or_some]
        · by_cases c4 : viewRankOf a = 1 ∧ latRankOf a = 1 ∧ lm = none
          · rw [show pickStep (r, lc, rm, lm) a = (r, lc, rm, some a) by
              unfold pickStep; dsimp only; rw [if_neg c1, if_neg c2, if_neg c3, if_pos c4]]
            rw [ih]
            obtain ⟨hv, hl, hlm⟩ := c4
            subst hlm
            rw [List.find?_cons, show isSlot 0 0 a = false by
                simp [isSlot]; omega,
              List.find?_cons, show isSlot 0 1 a = false by
                simp [isSlot]; omega,
              List.find?_cons, show isSlot 1 0 a = false by
                simp [isSlot]; omega,
              List.find?_cons, show isSlot 1 1 a = true from
                (hslot 1 1).mpr ⟨hv, hl⟩]
            simp [Option.none_or, Option.or_some]
          · rw [show pickStep (r, lc, rm, lm) a = (r, lc, rm, lm) by
              unfold pickStep
              dsimp only
              rw [if_neg c1, if_neg c2, if_neg c3, if_neg c4]]
            rw [ih]
            have hcomp : ∀ (v la : Nat) (o : Option MetadataInstance),
                (viewRankOf a = v ∧ latRankOf a = la ∧ o = none → False) →
                o.or ((a :: t).find? (isSlot v la))
                  = o.or (t.find? (isSlot v la)) := by
              intro v la o hno
              rcases o with _ | x
              · rw [List.find?_cons]
                have : isSlot v la a = false := by
                  simp [isSlot]
                  intro hv hl
                  exact absurd ⟨hv, hl, rfl⟩ hno
                rw [this]
              · rw [Option.or_some, Option.or_some]
            rw [hcomp 0 0 r c1, hcomp 0 1 lc c2, hcomp 1 0 rm c3,
              hcomp 1 1 lm c4]

theorem pickMammoQuartet_eq_find (l : List MetadataInstance) :
    pickMammoQuartet l =
      match l.find? (isSlot 0 0), l.find? (isSlot 0 1),
          l.find? (isSlot 1 0), l.find? (isSlot 1 1) with
      | some a, some b, some c, some d => some [a, b, c, d]
      | _, _, _, _ => none := by
  unfold pickMammoQuartet
  rw [pickFold_spec]
  rcases l.find? (isSlot 0 0) with _ | a <;>
    rcases l.find? (isSlot 0 1) with _ | b <;>
    rcases l.find? (isSlot 1 0) with _ | c <;>
    rcases l.find? (isSlot 1 1) with _ | d <;> rfl

/-- C3: for more than four instances, `reduce_series_instances` succeeds
exactly when scanning the sorted list fills each of the four slots with its
first matching instance (later duplicates ignored), so it never returns a
partial quartet; and for every input whose length is neither 1 nor 4 that
yields no quartet — lengths 0, 2 and 3, and longer lists with any slot
unfilled, e.g. 6 instances missing an MLO/L representative — the error
names the actual instance count. -/
theorem reduce_overfour_spec :
    (∀ (inst out : List MetadataInstance), 4 < inst.length →
      (reduceSeriesInstances inst = .ok out ↔
        pickMammoQuartet (sortInstancesForMammo inst) = some out)) ∧
    (∀ (l out : List MetadataInstance),
      pickMammoQuartet l = some out ↔
        ∃ a b c d, out = [a, b, c, d] ∧
          l.find? (isSlot 0 0) = some a ∧ l.find? (isSlot 0 1) = some b ∧
          l.find? (isSlot 1 0) = some c ∧ l.find? (isSlot 1 1) = some d) ∧
    (∀ inst : List MetadataInstance, inst.length ≠ 1 → inst.length ≠ 4 →
      (∀ out, reduceSeriesInstances inst ≠ .ok out) →
      reduceSeriesInstances inst = .error (reduceErrMsg inst.length)) := by
  have hlen : ∀ inst : List MetadataInstance,
      (sortInstancesForMammo inst).length = inst.length := by
    intro inst
    exact (List.perm_insertionSort mammoLe inst).length_eq
  have hpart1 : ∀ (inst out : List MetadataInstance), 4 < inst.length →
      (reduceSeriesInstances inst = .ok out ↔
        pickMammoQuartet (sortInstancesForMammo inst) = some out) := by
    intro inst out h4
    unfold reduceSeriesInstances
    rw [if_neg (by omega)]
    dsimp only
    rw [if_neg (by rw [hlen]; omega), if_pos (by rw [hlen]; omega)]
    rcases hp : pickMammoQuartet (sortInstancesForMammo inst) with _ | q
    · simp
    · constructor
      · intro h
        rw [Except.ok.injEq] at h
        rw [h]
      · intro h
        rw [Option.some.injEq] at h
        rw [h]
  refine ⟨hpart1, ?_, ?_⟩
  · intro l out
    rw [pickMammoQuartet_eq_find]
    rcases h00 : l.find? (isSlot 0 0) with _ | a <;>
      rcases h01 : l.find? (isSlot 0 1) with _ | b <;>
      rcases h10 : l.find? (isSlot 1 0) with _ | c <;>
      rcases h11 : l.find? (isSlot 1 1) with _ | d <;>
      simp
    constructor
    · intro h
      exact ⟨a, b, c, d, h.symm, rfl, rfl, rfl, rfl⟩
    · rintro ⟨a', b', c', d', ho, ha, hb, hc, hd⟩
      rw [ho, ha, hb, hc, hd]
  · intro inst h1 h4 hnok
    by_cases hgt : 4 < inst.length
    · rcases hp : pickMammoQuartet (sortInstancesForMammo inst) with _ | q
      · unfold reduceSeriesInstances
        rw [if_neg h1]
        dsimp only
        rw [if_neg (by rw [hlen]; exact h4), if_pos (by rw [hlen]; omega),
          hp, hlen]
      · exact absurd ((hpart1 inst q hgt).mpr hp) (hnok q)
    · unfold reduceSeriesInstances
      rw [if_neg h1]
      dsimp only
      rw [if_neg (by rw [hlen]; exact h4),
        if_neg (by rw [hlen]; exact hgt), hlen]

theorem reduce_overfour_spec_witness :
    (reduceSeriesInstances wSixMissing = .ok [] ↔
      pickMammoQuartet (sortInstancesForMammo wSixMissing) = some []) ∧
    reduceSeriesInstances wSixMissing = .error (reduceErrMsg 6) ∧
    reduceSeriesInstances [wInstCCR, wInstCCL] = .error (reduceErrMsg 2) :=
  ⟨reduce_overfour_spec.1 wSixMissing [] (by decide),
    reduce_overfour_spec.2.2 wSixMissing (by decide) (by decide)
      (fun out h => by
        rw [show reduceSeriesInstances wSixMissing
            = .error (reduceErrMsg 6) by decide] at h
        exact Except.noConfusion h),
    reduce_overfour_spec.2.2 [wInstCCR, wInstCCL] (by decide) (by decide)
      (fun out h => by
        rw [show reduceSeriesInstances [wInstCCR, wInstCCL]
            = .error (reduceErrMsg 2) by decide] at h
        exact Except.noConfusion h)⟩

/-! ### Download failure aggregation -/

theorem runAttempts_all_fail
    (attempt : String → String → Except String (List Nat))
    (f : String × String → String) :
    ∀ (pairs : List (String × String)), pairs ≠ [] →
      ∀ acc, (∀ p ∈ pairs, attempt p.1 p.2 = .error (f p)) →
      runAttempts attempt pairs acc =
        (none, some (formatAttemptFailure (pairs.getLastD ("", "")).1
          (pairs.getLastD ("", "")).2 (f (pairs.getLastD ("", ""))))) := by
  intro pairs
  induction pairs with
  | nil => intro h; exact absurd rfl h
  | cons p rest ih =>
    intro _ acc hall
    obtain ⟨u, a⟩ := p
    have h1 : attempt u a = Except.error (f (u, a)) :=
      hall (u, a) (List.mem_cons_self _ _)
    rw [runAttempts, h1]
    dsimp only
    rcases hr : rest with _ | ⟨q, rest'⟩
    · rfl
    · have hne : rest ≠ [] := by rw [hr]; simp
      rw [← hr,
        ih hne (some (formatAttemptFailure u a (f (u, a))))
          (fun p hp => hall p (List.mem_cons_of_mem _ hp)), hr]
      simp [List.getLastD_cons]

set_option maxRecDepth 8000 in
/-- C4 counterexample: when every attempt in the URL×Accept matrix fails,
the resulting error message carries only the last attempt's failure text;
the first attempt failed with `ALPHA`, which does not occur in the final
message, so the failures are not all aggregated. -/
theorem download_aggregate_counterexample :
    downloadInstanceModel c4Attempt "b" "st" none "in" =
      .error ("Failed downloading DICOM instance from study st, series None, instance in: " ++
        formatAttemptFailure "b/studies/st/instances/in"
          "multipart/related; type=\"application/dicom\"" "BETA") ∧
    c4Attempt "b/studies/st/instances/in" "application/dicom"
      = .error "ALPHA" ∧
    findSubslice
      ("Failed downloading DICOM instance from study st, series None, instance in: " ++
        formatAttemptFailure "b/studies/st/instances/in"
          "multipart/related; type=\"application/dicom\"" "BETA").toList
      ("ALPHA".toList) = none := by
  decide

/-- C4 (amended): when every URL×Accept attempt fails, `download_instance`
returns a single error whose detail is the formatted failure of the *last*
attempt in the matrix (each failure overwrites `last_error`, so earlier
attempts' messages are discarded). -/
theorem download_error_uses_last_attempt
    (attempt : String → String → Except String (List Nat))
    (f : String × String → String)
    (base study : String) (series : Option String) (inst : String)
    (hfail : ∀ p ∈ downloadAttemptPairs
        (buildDownloadUrls base study series inst) downloadAccepts,
      attempt p.1 p.2 = .error (f p)) :
    downloadInstanceModel attempt base study series inst =
      .error ("Failed downloading DICOM instance from study " ++ study ++
        ", series " ++ seriesDebug series ++ ", instance " ++ inst ++ ": " ++
        formatAttemptFailure
          ((downloadAttemptPairs (buildDownloadUrls base study series inst)
            downloadAccepts).getLastD ("", "")).1
          ((downloadAttemptPairs (buildDownloadUrls base study series inst)
            downloadAccepts).getLastD ("", "")).2
          (f ((downloadAttemptPairs (buildDownloadUrls base study series inst)
            downloadAccepts).getLastD ("", "")))) := by
  have hne : downloadAttemptPairs (buildDownloadUrls base study series inst)
      downloadAccepts ≠ [] := by
    rcases series with _ | s <;>
      simp [downloadAttemptPairs, buildDownloadUrls, downloadAccepts]
  unfold downloadInstanceModel
  rw [runAttempts_all_fail attempt f _ hne none hfail]
  rfl

theorem download_error_uses_last_attempt_witness :
    downloadInstanceModel c4Attempt "b" "st" none "in" =
      .error ("Failed downloading DICOM instance from study " ++ "st" ++
        ", series " ++ seriesDebug none ++ ", instance " ++ "in" ++ ": " ++
        formatAttemptFailure
          ((downloadAttemptPairs (buildDownloadUrls "b" "st" none "in")
            downloadAccepts).getLastD ("", "")).1
          ((downloadAttemptPairs (buildDownloadUrls "b" "st" none "in")
            downloadAccepts).getLastD ("", "")).2
          ((fun p =>
            if p.2 = "application/dicom" then "ALPHA" else "BETA")
            ((downloadAttemptPairs (buildDownloadUrls "b" "st" none "in")
              downloadAccepts).getLastD ("", "")))) :=
  download_error_uses_last_attempt c4Attempt
    (fun p => if p.2 = "application/dicom" then "ALPHA" else "BETA")
    "b" "st" none "in" (by decide)

/-! ### Metadata splitter intolerance of malformed input -/

theorem splitLoop_scan_none (input : List Char) :
    ∀ (rest : List Char) (index depth : Nat) (objStart : Option Nat)
      (inString escaped : Bool) (acc : List (List Char)),
      jsonScanC10 rest depth inString escaped = none →
      splitLoop input rest index depth objStart inString escaped acc =
        .error "Unexpected closing brace in JSON" := by
  intro rest
  induction rest with
  | nil =>
    intro index depth objStart inString escaped acc h
    simp only [jsonScanC10] at h
    exact Option.noConfusion h
  | cons ch rest ih =>
    intro index depth objStart inString escaped acc h
    simp only [jsonScanC10] at h
    simp only [splitLoop]
    split_ifs at h ⊢ <;>
      first
        | rfl
        | exact ih _ _ _ _ _ _ h
        | exact Option.noConfusion h

theorem splitLoop_scan_some (input : List Char) :
    ∀ (rest : List Char) (index depth : Nat) (objStart : Option Nat)
      (inString escaped : Bool) (acc : List (List Char)) (d : Nat) (i e : Bool),
      jsonScanC10 rest depth inString escaped = some (d, i, e) →
      ((d ≠ 0 ∨ i = true) →
        splitLoop input rest index depth objStart inString escaped acc =
          .error "Unbalanced JSON while parsing metadata") ∧
      (d = 0 → i = false →
        ∃ objs, splitLoop input rest index depth objStart inString escaped acc =
          .ok objs) := by
  intro rest
  induction rest with
  | nil =>
    intro index depth objStart inString escaped acc d i e h
    simp only [jsonScanC10, Option.some.injEq, Prod.mk.injEq] at h
    obtain ⟨rfl, rfl, rfl⟩ := h
    constructor
    · intro hcond
      simp only [splitLoop]
      rw [if_pos hcond]
    · intro hd hi
      subst hd
      subst hi
      exact ⟨acc, by simp [splitLoop]⟩
  | cons ch rest ih =>
    intro index depth objStart inString escaped acc d i e h
    simp only [jsonScanC10] at h
    simp only [splitLoop]
    split_ifs at h ⊢ <;>
      first
        | exact ih _ _ _ _ _ _ _ _ _ h
        | exact Option.noConfusion h

/-- C10: the metadata splitter is intolerant of malformed input.  A closing
brace at top level makes `split_top_level_json_objects` fail with the
unexpected-brace error; a final state with unbalanced braces or an
unterminated string literal makes it fail with the unbalanced error — in
both cases `parse_metadata_instances` propagates the error (with its parsing
context) instead of returning the complete objects collected so far.  A
successful split happens exactly when the scan ends balanced and outside any
string, and only then does parsing yield instances. -/
theorem split_top_level_rejects_malformed (input : List Char) :
    (jsonScanC10 input 0 false false = none →
      splitTopLevelJsonObjects input = .error "Unexpected closing brace in JSON" ∧
      parseMetadataInstances input =
        .error ("DICOMweb metadata JSON parsing failed: " ++
          "Unexpected closing brace in JSON")) ∧
    (∀ (d : Nat) (i e : Bool), jsonScanC10 input 0 false false = some (d, i, e) →
      (d ≠ 0 ∨ i = true) →
      splitTopLevelJsonObjects input =
        .error "Unbalanced JSON while parsing metadata" ∧
      parseMetadataInstances input =
        .error ("DICOMweb metadata JSON parsing failed: " ++
          "Unbalanced JSON while parsing metadata")) ∧
    (∀ objs, splitTopLevelJsonObjects input = .ok objs →
      (∃ e, jsonScanC10 input 0 false false = some (0, false, e)) ∧
      parseMetadataInstances input = .ok (objs.filterMap instanceFromObject)) ∧
    (∀ e : Bool, jsonScanC10 input 0 false false = some (0, false, e) →
      ∃ objs, splitTopLevelJsonObjects input = .ok objs ∧
        parseMetadataInstances input = .ok (objs.filterMap instanceFromObject)) := by
  refine ⟨?_, ?_, ?_, ?_⟩
  · intro h
    have hsplit : splitTopLevelJsonObjects input =
        .error "Unexpected closing brace in JSON" :=
      splitLoop_scan_none input input 0 0 none false false [] h
    exact ⟨hsplit, by simp only [parseMetadataInstances, hsplit]⟩
  · intro d i e h hcond
    have hsplit : splitTopLevelJsonObjects input =
        .error "Unbalanced JSON while parsing metadata" :=
      (splitLoop_scan_some input input 0 0 none false false [] d i e h).1 hcond
    exact ⟨hsplit, by simp only [parseMetadataInstances, hsplit]⟩
  · intro objs hok
    rcases hscan : jsonScanC10 input 0 false false with _ | ⟨d, i, e⟩
    · have hsplit : splitTopLevelJsonObjects input =
          .error "Unexpected closing brace in JSON" :=
        splitLoop_scan_none input input 0 0 none false false [] hscan
      rw [hsplit] at hok
      exact Except.noConfusion hok
    · by_cases hcond : d ≠ 0 ∨ i = true
      · have hsplit : splitTopLevelJsonObjects input =
            .error "Unbalanced JSON while parsing metadata" :=
          (splitLoop_scan_some input input 0 0 none false false [] d i e hscan).1
            hcond
        rw [hsplit] at hok
        exact Except.noConfusion hok
      · push_neg at hcond
        obtain ⟨hd, hi⟩ := hcond
        have hd0 : d = 0 := by omega
        have hi0 : i = false := by
          cases i
          · rfl
          · exact absurd rfl hi
        refine ⟨⟨e, ?_⟩, ?_⟩
        · rw [hd0, hi0]
        · simp only [parseMetadataInstances, hok]
  · intro e h
    obtain ⟨objs, hobjs⟩ :=
      (splitLoop_scan_some input input 0 0 none false false [] 0 false e h).2
        rfl rfl
    have hsplit : splitTopLevelJsonObjects input = .ok objs := hobjs
    exact ⟨objs, hsplit, by simp only [parseMetadataInstances, hsplit]⟩

theorem split_top_level_rejects_malformed_witness :
    splitTopLevelJsonObjects ("\x7d".toList) =
      .error "Unexpected closing brace in JSON" ∧
    splitTopLevelJsonObjects ("\x7b\"a\": 1".toList) =
      .error "Unbalanced JSON while parsing metadata" ∧
    splitTopLevelJsonObjects ("\"truncated".toList) =
      .error "Unbalanced JSON while parsing metadata" ∧
    (∃ objs, splitTopLevelJsonObjects ("\x7b\x7d".toList) = .ok objs) := by
  refine ⟨((split_top_level_rejects_malformed ("\x7d".toList)).1 (by decide)).1,
    ((split_top_level_rejects_malformed ("\x7b\"a\": 1".toList)).2.1 1 false
      false (by decide) (by decide)).1,
    ((split_top_level_rejects_malformed ("\"truncated".toList)).2.1 0 true
      false (by decide) (by decide)).1, ?_⟩
  obtain ⟨objs, hobjs, -⟩ :=
    (split_top_level_rejects_malformed ("\x7b\x7d".toList)).2.2.2 false
      (by decide)
  exact ⟨objs, hobjs⟩

end Perspecta
